import Mathlib

/-!
Verification of the qr-gen batch QR-card generator (`config_manager.py`)
against its natural-language specification.

Shallow embedding conventions:
* Python strings are Lean `String`s; `str.startswith` is prefix testing on
  the underlying character list.
* Python integers are `Nat` (all quantities involved are non-negative);
  `int(x)` on a non-negative real is floor, so exact rational expressions
  such as `int((index / total) * 100)` are embedded as `Nat` floor division.
* `max(0, c - 40)` on integers is truncated subtraction on `Nat`.
* Fallible effects (encoding, file writes, `exec` of stored template code)
  are modelled by explicit outcome oracles; the filesystem visible to the
  worker is a list of file handles.
-/

namespace QRGen

/-- An RGB color triple, one `Nat` per 8-bit channel. -/
structure RGB where
  r : Nat
  g : Nat
  b : Nat
deriving DecidableEq, Repr

/-- Python `s.startswith(p)`: `p` is a prefix of the character sequence of `s`. -/
def startswith (s p : String) : Bool :=
  p.data.isPrefixOf s.data

/-- Embedding of `detect_data_type` (config_manager.py:1856-1875): recognized
scheme prefixes pass through; anything else gets `https://` prepended unless
already schemed. -/
def detect_data_type (data : String) : String :=
  if startswith data "WIFI:" then data
  else if startswith data "TEL:" then data
  else if startswith data "mailto:" then data
  else if startswith data "http" then data
  else if !(startswith data "http://" || startswith data "https://") then
    "https://" ++ data
  else
    data

/-!
An exact model of IEEE-754 binary64 (Python `float`) arithmetic, used to
embed the float expressions of the source faithfully. A finite non-zero
double is a value `m * 2^(E-52)` with significand `2^52 ≤ m ≤ 2^53` (the
upper bound arises transiently when rounding up crosses a binade); zero is
`(0, 0)`. Every arithmetic operation of the source rounds its exact
rational result to the nearest such value, ties to even, exactly as IEEE
round-to-nearest-even does for every normal-range result (the modeled
expressions never overflow or reach the subnormal range, where this
unbounded-exponent model and IEEE agree). Everything is built from
structural `Nat`/`Int` arithmetic so that concrete values compute.
-/

/-- Fuel-driven floor of `log2` (the fuel only bounds the recursion; with
fuel at least `n` the result is exact). -/
def nlog2F : Nat → Nat → Nat
  | 0, _ => 0
  | fuel + 1, n => if 2 ≤ n then nlog2F fuel (n / 2) + 1 else 0

/-- `nlog2 n = floor (log2 n)` for `n ≥ 1`. -/
def nlog2 (n : Nat) : Nat := nlog2F n n

/-- `elog a b = floor (log2 (a / b))` for `a, b ≥ 1`: the first guess
`log2 a - log2 b` is off by at most one and is corrected by comparing
`a / b` against neighbouring powers of two (the comparison `2^e ≤ a/b` is
encoded without rationals as `b * 2^max(e,0) ≤ a * 2^max(-e,0)`). -/
def elog (a b : Nat) : Int :=
  let e0 : Int := (nlog2 a : Int) - (nlog2 b : Int)
  if b * 2 ^ (e0 + 1).toNat ≤ a * 2 ^ (-(e0 + 1)).toNat then e0 + 1
  else if b * 2 ^ e0.toNat ≤ a * 2 ^ (-e0).toNat then e0
  else e0 - 1

/-- Round the rational `num / den` to the nearest integer, ties to even. -/
def rheN (num den : Nat) : Nat :=
  if 2 * (num % den) < den then num / den
  else if den < 2 * (num % den) then num / den + 1
  else if (num / den) % 2 = 0 then num / den else num / den + 1

/-- Round the positive rational `a / b` (`a, b ≥ 1`) to the nearest
binary64 value, ties to even: scale `a / b` into `[2^52, 2^53)` using its
exponent `E`, round the scaled significand to the nearest integer (ties to
even), and return `(m, E)` representing `m * 2^(E-52)`. -/
def roundPosPair (a b : Nat) : Nat × Int :=
  let E := elog a b
  (rheN (a * 2 ^ ((52 : Int) - E).toNat) (b * 2 ^ (E - (52 : Int)).toNat), E)

/-- Round the rational `num / den` (`den ≥ 1`) to the nearest binary64
value `(m, E)` with value `m * 2^(E-52)`; negative inputs round
symmetrically, zero is `(0, 0)`. -/
def froundZ (num : Int) (den : Nat) : Int × Int :=
  if num = 0 then (0, 0)
  else if 0 ≤ num then
    ((roundPosPair num.toNat den).1, (roundPosPair num.toNat den).2)
  else
    (-((roundPosPair (-num).toNat den).1 : Int), (roundPosPair (-num).toNat den).2)

/-- Python `float(c)` for a non-negative integer `c`: the nearest double
(exact whenever `c ≤ 2^53`). -/
def toF64 (c : Nat) : Int × Int := froundZ (c : Int) 1

/-- Correctly rounded product of two doubles: the exact product
`x.1 * y.1 * 2^(x.2-52) * 2^(y.2-52)` written as an integer over a
power-of-two denominator, then rounded. -/
def fmulF (x y : Int × Int) : Int × Int :=
  froundZ (x.1 * y.1 * 2 ^ (x.2 - 52).toNat * 2 ^ (y.2 - 52).toNat)
    (2 ^ ((52 : Int) - x.2).toNat * 2 ^ ((52 : Int) - y.2).toNat)

/-- Correctly rounded sum of two doubles: the exact sum over the common
power-of-two denominator, then rounded. -/
def faddF (x y : Int × Int) : Int × Int :=
  froundZ (x.1 * 2 ^ (x.2 - 52).toNat * 2 ^ ((52 : Int) - y.2).toNat
      + y.1 * 2 ^ (y.2 - 52).toNat * 2 ^ ((52 : Int) - x.2).toNat)
    (2 ^ ((52 : Int) - x.2).toNat * 2 ^ ((52 : Int) - y.2).toNat)

/-- Correctly rounded difference of two doubles (negation is exact). -/
def fsubF (x y : Int × Int) : Int × Int := faddF x (-y.1, y.2)

/-- Python `a / b` on non-negative integers (true division): the exact
quotient correctly rounded to a double. -/
def fdivF (a b : Nat) : Int × Int := froundZ (a : Int) b

/-- Python `int(x)` on a double: truncation toward zero (floor of the
magnitude). -/
def fintF (s : Int × Int) : Int :=
  if 0 ≤ s.1 then
    ((s.1.toNat * 2 ^ (s.2 - 52).toNat) / 2 ^ ((52 : Int) - s.2).toNat : Nat)
  else
    -((((-s.1).toNat * 2 ^ (s.2 - 52).toNat) / 2 ^ ((52 : Int) - s.2).toNat : Nat) : Int)

/-- The spec-level value of a modeled double. -/
def fval (x : Int × Int) : ℚ := (x.1 : ℚ) * (2 : ℚ) ^ (x.2 - 52)

/-- Embedding of the progress expression `int((index / total) * 100)` of
`QRWorker.run` in binary64 arithmetic: `index / total` is Python true
division of integers (correctly rounded), the product with the exact float
100 is correctly rounded, and `int` truncates. This can differ from
`floor(index * 100 / total)`: at `index = 29, total = 50` the double
product is just below 58 and the program emits 57. -/
def pyProgress (i total : Nat) : Nat :=
  (fintF (fmulF (fdivF i total) (toF64 100))).toNat

/-- One channel of a gradient scanline, embedding
`int(color1[c] * (1 - ratio) + color2[c] * ratio)` with `ratio = i / n`,
evaluated step by step in binary64 arithmetic exactly as Python does:
`ratio` is a correctly rounded quotient, `1 - ratio`, each product with the
float of the integer channel, and the final sum are correctly rounded, and
`int` truncates toward zero. -/
def pyGradChannel (c1 c2 i n : Nat) : Nat :=
  let t := fdivF i n
  let u := fsubF (toF64 1) t
  let v := fmulF (toF64 c1) u
  let w := fmulF (toF64 c2) t
  (fintF (faddF v w)).toNat

/-- The color drawn on scanline `i` of `n` by `create_gradient`. -/
def pyGradColor (color1 color2 : RGB) (i n : Nat) : RGB :=
  ⟨pyGradChannel color1.r color2.r i n,
   pyGradChannel color1.g color2.g i n,
   pyGradChannel color1.b color2.b i n⟩

/-- Embedding of `create_gradient` (config_manager.py:2353-2368), returning
the sequence of scanline colors along the gradient axis (each scanline of
the produced image is uniform, so the image content is exactly this list). -/
def create_gradient (width height : Nat) (color1 color2 : RGB)
    (direction : String) : List RGB :=
  let extent := if direction = "vertical" then height else width
  (List.range extent).map (fun i => pyGradColor color1 color2 i extent)

/-- Modelled from the spec: the spec's per-channel formula
`round(A*(1-ratio) + B*ratio)` with `ratio = i / n`, i.e. rounding the exact
rational `(c1*(n-i) + c2*i) / n` to the nearest integer (half rounds up):
`round(x) = floor(x + 1/2)`. Used only to compare the spec's words against
the source's `pyGradChannel`. -/
def gradChannelSpecRound (c1 c2 i n : Nat) : Nat :=
  (2 * (c1 * (n - i) + c2 * i) + n) / (2 * n)

/-- Near-white test of the palette-extractor fallback:
all three channels above 240. -/
def nearWhite (p : RGB) : Bool :=
  decide (240 < p.r) && decide (240 < p.g) && decide (240 < p.b)

/-- Near-black test of the palette-extractor fallback:
all three channels below 20. -/
def nearBlack (p : RGB) : Bool :=
  decide (p.r < 20) && decide (p.g < 20) && decide (p.b < 20)

/-- Pixel filter of the fallback path: keep pixels that are neither
near-white nor near-black. -/
def keepPixel (p : RGB) : Bool :=
  !(nearWhite p || nearBlack p)

/-- Summed per-channel absolute difference:
`sum(abs(color[i] - c[i]) for i in range(3))`. -/
def colorDist (a b : RGB) : Nat :=
  Nat.dist a.r b.r + Nat.dist a.g b.g + Nat.dist a.b b.b

/-- Keys of `Counter(l)` in Python dict order: distinct values in order of
first occurrence. -/
def firstKeys (l : List RGB) : List RGB :=
  l.foldl (fun acc p => if p ∈ acc then acc else acc ++ [p]) []

/-- Embedding of `Counter(l).most_common(n)`: keys sorted by descending count, ties kept
in first-occurrence order (Python's sort is stable and `reverse=True` does
not reorder ties), truncated to `n`. -/
def mostCommon (l : List RGB) (n : Nat) : List RGB :=
  (List.insertionSort (fun a b => l.count b ≤ l.count a) (firstKeys l)).take n

/-- The greedy selection loop of the fallback path: take candidates in
frequency order, keep one iff the selection is empty or it is more than 80
away from every kept color, stop as soon as `k` colors are kept. -/
def greedyPick : List RGB → List RGB → Nat → List RGB
  | [], sel, _ => sel
  | c :: rest, sel, k =>
    if sel.isEmpty || sel.all (fun s => decide (80 < colorDist c s)) then
      let sel2 := sel ++ [c]
      if k ≤ sel2.length then sel2 else greedyPick rest sel2 k
    else
      greedyPick rest sel k

/-- Darkening step `tuple(max(0, c - 40) for c in color)`: darken each
channel by 40, floored at 0 (truncated `Nat` subtraction). -/
def darken (p : RGB) : RGB :=
  ⟨p.r - 40, p.g - 40, p.b - 40⟩

/-- The fixed neutral palette returned by `extract_colors_from_logo` when an
exception escapes either extraction path. -/
def defaultPalette : List RGB :=
  [⟨26, 35, 126⟩, ⟨74, 0, 224⟩, ⟨138, 43, 226⟩]

/-- The pixel list actually counted by the fallback path:
`Counter(pixels or list(img.getdata()))` — the near-white/near-black
filtered pixels, or all pixels when the filter removed everything. -/
def extractCounted (allPixels : List RGB) : List RGB :=
  if (allPixels.filter keepPixel).isEmpty then allPixels
  else allPixels.filter keepPixel

/-- The padding (`while len(selected) < num_colors`) and truncation
(`selected[:num_colors]`) stage applied to the greedy selection `sel`:
append the darkened first selection until 3 entries exist (each appended
entry is the same color, since `selected[0]` never changes), then take 3.
An empty selection makes `selected[0]` raise IndexError, which the
surrounding `except` turns into `defaultPalette`. -/
def extractFinish : List RGB → List RGB
  | [] => defaultPalette
  | s0 :: tl =>
    ((s0 :: tl) ++ List.replicate (3 - (s0 :: tl).length) (darken s0)).take 3

/-- Embedding of the fallback branch of `extract_colors_from_logo`
(config_manager.py:2446-2467), as a function of the pixel list of the
decoded, 150x150-resized image (`img.getdata()`), with `num_colors = 3`:
filter out near-white/near-black pixels; if nothing is left, count all
pixels instead; greedily pick up to 3 colors from the
`most_common(num_colors * 5) = 15` candidates; pad to 3 with the darkened
first selection and truncate. -/
def extract_colors_fallback (allPixels : List RGB) : List RGB :=
  extractFinish (greedyPick (mostCommon (extractCounted allPixels) 15) [] 3)

/-- A value living in the namespace produced by `exec` of stored template
code, or returned by `get_template_function`: a bound method of the app
class (the 8 built-in template renderers, identified by variant number), a
function object defined by the executed code, or any non-function value. -/
inductive PyValue where
  | builtinTemplate (n : Nat)
  | pyFunc (tag : Nat)
  | nonFunc (tag : Nat)
deriving DecidableEq, Repr

/-- Whether a `PyValue` is callable render code (a function). -/
def isFunc : PyValue → Bool
  | .builtinTemplate _ => true
  | .pyFunc _ => true
  | .nonFunc _ => false

/-- Outcome of `exec(code, namespace)` on stored custom-template source:
either an exception, or a namespace binding names to values. -/
inductive ExecOutcome where
  | raises
  | ok (ns : List (String × PyValue))

/-- A stored custom template record `{id, name, description, code}`. -/
structure CustomTemplate where
  id : Nat
  name : String
  description : String
  code : String

/-- Embedding of `get_template_function` (config_manager.py:1877-1905).
`evalCode` models `exec` of the stored source: ids 1-8 return the
corresponding built-in bound method; otherwise the first stored custom
template with the selected id is evaluated inside `try`, and
`namespace.get('template_custom', self.template_modern_gradient)` is
returned; every failure path yields built-in variant 1. -/
def get_template_function (selected : Nat) (customs : List CustomTemplate)
    (evalCode : String → ExecOutcome) : PyValue :=
  if selected = 1 then .builtinTemplate 1
  else if selected = 2 then .builtinTemplate 2
  else if selected = 3 then .builtinTemplate 3
  else if selected = 4 then .builtinTemplate 4
  else if selected = 5 then .builtinTemplate 5
  else if selected = 6 then .builtinTemplate 6
  else if selected = 7 then .builtinTemplate 7
  else if selected = 8 then .builtinTemplate 8
  else
    match customs.find? (fun t => t.id == selected) with
    | some t =>
      match evalCode t.code with
      | .raises => .builtinTemplate 1
      | .ok ns => ((ns.lookup "template_custom").getD (.builtinTemplate 1))
    | none => .builtinTemplate 1

/-- A file path visible to the worker: either the fresh temporary QR bitmap
path created by `tempfile.mkstemp` for record `idx` (mkstemp guarantees a
path distinct from every other file), or a file with the given basename in
the output directory. -/
inductive FPath where
  | tempFile (idx : Nat)
  | outFile (basename : String)
deriving DecidableEq, Repr

/-- One history record `{date, template, count, output_dir}`. -/
structure HistoryRecord where
  date : String
  template : String
  count : Nat
  output_dir : String
deriving DecidableEq, Repr

/-- The worker settings snapshotted from the app object at job start. -/
structure WorkerConfig where
  prefixText : String
  templateName : String
  outputFormat : String
  outputDir : String
deriving Repr

/-- Outcome oracles for the fallible per-record effects, indexed by the
1-based record index: `segno.make` (encode), `qr.save`/`Image.open` on the
temp file, the template render call, and `final_img.save` of the output
file. `none` means the call succeeds, `some e` means it raises with
message text `e`. -/
structure RecordOracles where
  encodeErr : Nat → Option String
  saveErr : Nat → Option String
  renderErr : Nat → Option String
  writeErr : Nat → Option String

/-- Observable state of one `QRWorker.run` execution: the files existing on
disk, the chunks written to `formatted_links.txt` in order, the values sent
on the progress signal in order, the `(success, message)` pairs sent on the
finished signal in order, and the history list. -/
structure WorkerState where
  files : List FPath
  formattedChunks : List String
  progressEmits : List Nat
  finishedEmits : List (Bool × String)
  history : List HistoryRecord
deriving Repr

/-- The label derived for record `idx`: `f"{self.parent.name_prefix} {index}"`. -/
def recordLabel (cfg : WorkerConfig) (idx : Nat) : String :=
  cfg.prefixText ++ " " ++ toString idx

/-- The chunk written to `formatted_links.txt` for record `idx` with raw
payload `link`: `f"{file_name}\n`{link}`\n\n"`. -/
def formattedEntry (cfg : WorkerConfig) (idx : Nat) (link : String) : String :=
  recordLabel cfg idx ++ "\n`" ++ link ++ "`\n\n"

/-- The output file basename for record `idx`:
`f"{template_name}_{file_name}.{self.parent.output_format.lower()}"`. -/
def outputName (cfg : WorkerConfig) (idx : Nat) : String :=
  cfg.templateName ++ "_" ++ recordLabel cfg idx ++ "." ++ cfg.outputFormat.toLower

/-- The format chain: the `if/elif` ladder of `QRWorker.run` saves the card only for these
three formats; any other format value falls through without writing. -/
def recognizedFormat (cfg : WorkerConfig) : Bool :=
  cfg.outputFormat == "PNG" || cfg.outputFormat == "JPG" || cfg.outputFormat == "WEBP"

/-- One iteration of the per-record loop of `QRWorker.run`
(config_manager.py:2888-2921) on record `idx` (1-based) with payload
`link`, out of `total` records: write the formatted entry; encode
(`segno.make`, may raise); create the temp bitmap file; inside `try`: save
and reopen the bitmap (may raise), render the template (may raise), save
the output file (may raise; only a recognized format writes), emit
`int((index / total) * 100)`; `finally`: delete the temp file. Returns the
new state and the exception message, if any escaped. -/
def processRecord (cfg : WorkerConfig) (orc : RecordOracles) (total : Nat)
    (st : WorkerState) (idx : Nat) (link : String) :
    WorkerState × Option String :=
  let st := { st with formattedChunks := st.formattedChunks ++ [formattedEntry cfg idx link] }
  match orc.encodeErr idx with
  | some e => (st, some e)
  | none =>
    let st := { st with files := st.files ++ [FPath.tempFile idx] }
    let inner : WorkerState × Option String :=
      match orc.saveErr idx with
      | some e => (st, some e)
      | none =>
        match orc.renderErr idx with
        | some e => (st, some e)
        | none =>
          if recognizedFormat cfg then
            match orc.writeErr idx with
            | some e => (st, some e)
            | none =>
              let st := { st with files := st.files ++ [FPath.outFile (outputName cfg idx)] }
              ({ st with progressEmits := st.progressEmits ++ [pyProgress idx total] }, none)
          else
            ({ st with progressEmits := st.progressEmits ++ [pyProgress idx total] }, none)
    let st2 := inner.1
    ({ st2 with files := st2.files.filter (fun f => !(f == FPath.tempFile idx)) }, inner.2)

/-- The per-record loop of `QRWorker.run` from 1-based index `idx` over the
remaining records: stops at the first record whose body raises. -/
def runLoop (cfg : WorkerConfig) (orc : RecordOracles) (total : Nat) :
    WorkerState → Nat → List String → WorkerState × Option String
  | st, _, [] => (st, none)
  | st, idx, link :: rest =>
    let step := processRecord cfg orc total st idx link
    match step.2 with
    | some e => (step.1, some e)
    | none => runLoop cfg orc total step.1 (idx + 1) rest

/-- The worker state at entry to the per-record loop: progress 0 already emitted,
`formatted_links.txt` created by `open(formatted_file, 'w')`, nothing else
done yet. -/
def initialState (history0 : List HistoryRecord) : WorkerState :=
  { files := [FPath.outFile "formatted_links.txt"], formattedChunks := [],
    progressEmits := [0], finishedEmits := [], history := history0 }

/-- Embedding of `QRWorker.run` (config_manager.py:2858-2934), starting
from the point where the output directory exists and the input file has
been read into the trimmed non-blank line list `links` (the claims under
verification all condition on reaching this point). It emits progress 0,
opens `formatted_links.txt` for writing (which creates the file), runs the
per-record loop, and then either appends one history record and emits one
success message, or emits one failure message carrying the text of the
exception that aborted the loop. -/
def QRWorker_run (cfg : WorkerConfig) (orc : RecordOracles)
    (links : List String) (date : String) (history0 : List HistoryRecord) :
    WorkerState :=
  let total := links.length
  let res := runLoop cfg orc total (initialState history0) 1 links
  match res.2 with
  | none =>
    let st := res.1
    let newRec : HistoryRecord :=
      { date := date, template := cfg.templateName, count := total,
        output_dir := cfg.outputDir }
    let st := { st with history := st.history ++ [newRec] }
    { st with finishedEmits := st.finishedEmits ++
      [(true, "✅ Generated " ++ toString total ++ " QR codes successfully!\n\n📁 Path: " ++ cfg.outputDir)] }
  | some e =>
    { res.1 with finishedEmits := res.1.finishedEmits ++
      [(false, "❌ Failed to generate QR codes:\n" ++ e)] }

/-- Embedding of the validation in `start_generation`
(config_manager.py:2470-2488): the worker is started iff an input path is
set and the file exists; nothing about the file's content is checked. -/
def start_generation_starts (inputFileSet : Bool) (inputFileExists : Bool) : Bool :=
  inputFileSet && inputFileExists

/-- Record `j` of a run raises no exception in any of its fallible steps. -/
def recordOk (orc : RecordOracles) (j : Nat) : Prop :=
  orc.encodeErr j = none ∧ orc.saveErr j = none ∧
  orc.renderErr j = none ∧ orc.writeErr j = none

/-- Record `j` raises, and `e` is the message of the first step that
raises (encode, bitmap save, render, or output write, in program order). -/
def recordFailsWith (orc : RecordOracles) (j : Nat) (e : String) : Prop :=
  orc.encodeErr j = some e ∨
  (orc.encodeErr j = none ∧ orc.saveErr j = some e) ∨
  (orc.encodeErr j = none ∧ orc.saveErr j = none ∧ orc.renderErr j = some e) ∨
  (orc.encodeErr j = none ∧ orc.saveErr j = none ∧ orc.renderErr j = none ∧
    orc.writeErr j = some e)

/-- No temporary QR bitmap file exists in the state. -/
def noTemp (st : WorkerState) : Prop :=
  ∀ j, FPath.tempFile j ∉ st.files

/-- The `formatted_links.txt` chunks produced for the records of `l`,
starting at 1-based index `idx`. -/
def entriesFrom (cfg : WorkerConfig) : Nat → List String → List String
  | _, [] => []
  | idx, link :: rest => formattedEntry cfg idx link :: entriesFrom cfg (idx + 1) rest

/-- The output files written for the records of `l` starting at index
`idx`, when every record succeeds (one card per record for a recognized
output format, none otherwise). -/
def outFilesFrom (cfg : WorkerConfig) : Nat → List String → List FPath
  | _, [] => []
  | idx, _ :: rest =>
    (if recognizedFormat cfg then [FPath.outFile (outputName cfg idx)] else []) ++
      outFilesFrom cfg (idx + 1) rest

/-- The progress values emitted for the records of `l` starting at index
`idx`, when every record succeeds. -/
def progressFrom (total : Nat) : Nat → List String → List Nat
  | _, [] => []
  | idx, _ :: rest => pyProgress idx total :: progressFrom total (idx + 1) rest

/-! Theorems. -/

theorem isPrefixOf_of_append_left (l1 l2 s : List Char)
    (h : (l1 ++ l2).isPrefixOf s = true) : l1.isPrefixOf s = true := by
  induction l1 generalizing s with
  | nil => simp [List.isPrefixOf]
  | cons a as ih =>
    cases s with
    | nil => simp [List.isPrefixOf] at h
    | cons b bs =>
      simp only [List.cons_append, List.isPrefixOf, Bool.and_eq_true] at h ⊢
      exact ⟨h.1, ih bs h.2⟩

theorem startswith_of_startswith_append (s p q : String)
    (hq : q.data = p.data ++ (q.data.drop p.data.length))
    (h : startswith s q = true) : startswith s p = true := by
  unfold startswith at h ⊢
  rw [hq] at h
  exact isPrefixOf_of_append_left _ _ _ h

/-- Claim C2: a payload beginning with one of the four recognized literal
prefixes (`WIFI:`, `TEL:`, `mailto:`, `http`) is returned unchanged by
`detect_data_type`; every other payload is returned with `https://`
prepended. -/
theorem detect_data_type_spec (data : String) :
    (startswith data "WIFI:" = true → detect_data_type data = data) ∧
    (startswith data "TEL:" = true → detect_data_type data = data) ∧
    (startswith data "mailto:" = true → detect_data_type data = data) ∧
    (startswith data "http" = true → detect_data_type data = data) ∧
    (startswith data "WIFI:" = false → startswith data "TEL:" = false →
      startswith data "mailto:" = false → startswith data "http" = false →
      detect_data_type data = "https://" ++ data) := by
  refine ⟨?_, ?_, ?_, ?_, ?_⟩
  · intro h; simp [detect_data_type, h]
  · intro h; simp [detect_data_type, h]
  · intro h; simp [detect_data_type, h]
  · intro h; simp [detect_data_type, h]
  · intro hW hT hM hH
    have h1 : startswith data "http://" = false := by
      cases hx : startswith data "http://" with
      | false => rfl
      | true =>
        have := startswith_of_startswith_append data "http" "http://" (by decide) hx
        rw [this] at hH; exact absurd hH (by simp)
    have h2 : startswith data "https://" = false := by
      cases hx : startswith data "https://" with
      | false => rfl
      | true =>
        have := startswith_of_startswith_append data "http" "https://" (by decide) hx
        rw [this] at hH; exact absurd hH (by simp)
    simp [detect_data_type, hW, hT, hM, hH, h1, h2]

/-- Claim C2 witness: concrete payloads of each kind, including the spec's
scenario `example.com ↦ https://example.com`. -/
theorem detect_data_type_spec_witness :
    detect_data_type "WIFI:T:WPA;S:net;P:pw;;" = "WIFI:T:WPA;S:net;P:pw;;" ∧
    detect_data_type "TEL:+123" = "TEL:+123" ∧
    detect_data_type "mailto:a@b.c" = "mailto:a@b.c" ∧
    detect_data_type "https://a.example" = "https://a.example" ∧
    detect_data_type "example.com" = "https://example.com" := by
  refine ⟨(detect_data_type_spec _).1 (by decide),
    (detect_data_type_spec _).2.1 (by decide),
    (detect_data_type_spec _).2.2.1 (by decide),
    (detect_data_type_spec _).2.2.2.1 (by decide),
    ?_⟩
  have h := (detect_data_type_spec "example.com").2.2.2.2
    (by decide) (by decide) (by decide) (by decide)
  exact h

theorem nlog2F_spec : ∀ (fuel n : Nat), 1 ≤ n → n ≤ fuel →
    2 ^ nlog2F fuel n ≤ n ∧ n < 2 ^ (nlog2F fuel n + 1) := by
  intro fuel
  induction fuel with
  | zero => intro n h1 h2; omega
  | succ f ih =>
    intro n h1 h2
    rw [nlog2F]
    by_cases h : 2 ≤ n
    · simp only [h, if_true]
      obtain ⟨ha, hb⟩ := ih (n / 2) (by omega) (by omega)
      have e1 : 2 ^ (nlog2F f (n / 2) + 1) = 2 * 2 ^ nlog2F f (n / 2) := by
        rw [pow_succ]; ring
      have e2 : 2 ^ (nlog2F f (n / 2) + 1 + 1) = 2 * 2 ^ (nlog2F f (n / 2) + 1) := by
        rw [pow_succ (n := nlog2F f (n / 2) + 1)]; ring
      omega
    · have hn : n = 1 := by omega
      subst hn
      simp [h]

theorem nlog2_spec (n : Nat) (h : 1 ≤ n) :
    2 ^ nlog2 n ≤ n ∧ n < 2 ^ (nlog2 n + 1) :=
  nlog2F_spec n n h (le_refl n)

theorem two_zpow_split (z : Int) :
    (2 : ℚ) ^ z.toNat = (2 : ℚ) ^ z * (2 : ℚ) ^ ((-z).toNat) := by
  obtain ⟨n, rfl | rfl⟩ := Int.eq_nat_or_neg z
  · rw [Int.toNat_natCast, show ((-(n : Int)).toNat) = 0 by omega]
    rw [zpow_natCast]
    ring
  · rw [show ((-(n : Int)).toNat) = 0 by omega, neg_neg, Int.toNat_natCast]
    rw [zpow_neg, zpow_natCast]
    rw [pow_zero, inv_mul_cancel₀ (by positivity)]

theorem cle_iff (a b : Nat) (hb : 1 ≤ b) (e : Int) :
    (b * 2 ^ e.toNat ≤ a * 2 ^ (-e).toNat) ↔ (2 : ℚ) ^ e ≤ (a : ℚ) / b := by
  have hbQ : (0 : ℚ) < b := by exact_mod_cast hb
  have hp : (0 : ℚ) < (2 : ℚ) ^ ((-e).toNat) := by positivity
  rw [← Nat.cast_le (α := ℚ)]
  push_cast
  rw [two_zpow_split e]
  rw [le_div_iff hbQ]
  constructor
  · intro h
    have h2 : (2 : ℚ) ^ e * (b : ℚ) * (2 : ℚ) ^ ((-e).toNat)
        ≤ (a : ℚ) * (2 : ℚ) ^ ((-e).toNat) := by
      calc (2 : ℚ) ^ e * (b : ℚ) * (2 : ℚ) ^ ((-e).toNat)
          = (b : ℚ) * ((2 : ℚ) ^ e * (2 : ℚ) ^ ((-e).toNat)) := by ring
        _ ≤ (a : ℚ) * (2 : ℚ) ^ ((-e).toNat) := h
    exact le_of_mul_le_mul_right h2 hp
  · intro h
    calc (b : ℚ) * ((2 : ℚ) ^ e * (2 : ℚ) ^ ((-e).toNat))
        = (2 : ℚ) ^ e * (b : ℚ) * (2 : ℚ) ^ ((-e).toNat) := by ring
      _ ≤ (a : ℚ) * (2 : ℚ) ^ ((-e).toNat) :=
        mul_le_mul_of_nonneg_right h (le_of_lt hp)

theorem two_zpow_cast_pow (n : Nat) : (2 : ℚ) ^ (n : Int) = (2 : ℚ) ^ n :=
  zpow_natCast 2 n

theorem two_zpow_sub_cast (m n : Nat) :
    (2 : ℚ) ^ ((m : Int) - n) = (2 : ℚ) ^ m / (2 : ℚ) ^ n := by
  rw [zpow_sub₀ (by norm_num : (2 : ℚ) ≠ 0), two_zpow_cast_pow, two_zpow_cast_pow]

theorem elog_spec (a b : Nat) (ha : 1 ≤ a) (hb : 1 ≤ b) :
    (2 : ℚ) ^ elog a b ≤ (a : ℚ) / b ∧ (a : ℚ) / b < (2 : ℚ) ^ (elog a b + 1) := by
  have hbQ : (0 : ℚ) < b := by exact_mod_cast hb
  obtain ⟨hka, hka2⟩ := nlog2_spec a ha
  obtain ⟨hkb, hkb2⟩ := nlog2_spec b hb
  have hkaQ : ((2 : ℚ)) ^ (nlog2 a) ≤ a := by exact_mod_cast hka
  have hka2Q : (a : ℚ) < (2 : ℚ) ^ (nlog2 a + 1) := by exact_mod_cast hka2
  have hkbQ : ((2 : ℚ)) ^ (nlog2 b) ≤ b := by exact_mod_cast hkb
  have hkb2Q : (b : ℚ) < (2 : ℚ) ^ (nlog2 b + 1) := by exact_mod_cast hkb2
  have hub : (a : ℚ) / b < (2 : ℚ) ^ ((nlog2 a : Int) - nlog2 b + 1) := by
    have s1 : (a : ℚ) / b < (2 : ℚ) ^ (nlog2 a + 1) / (2 : ℚ) ^ (nlog2 b) := by
      gcongr
    have s2 : (2 : ℚ) ^ ((nlog2 a : Int) - nlog2 b + 1)
        = (2 : ℚ) ^ (nlog2 a + 1) / (2 : ℚ) ^ (nlog2 b) := by
      rw [← two_zpow_sub_cast (nlog2 a + 1) (nlog2 b)]
      congr 1
      push_cast
      ring
    rw [s2]
    exact s1
  have hlb : (2 : ℚ) ^ ((nlog2 a : Int) - nlog2 b - 1) ≤ (a : ℚ) / b := by
    have s1 : (2 : ℚ) ^ (nlog2 a) / (2 : ℚ) ^ (nlog2 b + 1) ≤ (a : ℚ) / b := by
      gcongr
    have s2 : (2 : ℚ) ^ ((nlog2 a : Int) - nlog2 b - 1)
        = (2 : ℚ) ^ (nlog2 a) / (2 : ℚ) ^ (nlog2 b + 1) := by
      rw [← two_zpow_sub_cast (nlog2 a) (nlog2 b + 1)]
      congr 1
      push_cast
      ring
    rw [s2]
    exact s1
  simp only [elog]
  split_ifs with h1 h2
  · refine ⟨(cle_iff a b hb _).mp h1, ?_⟩
    refine lt_of_lt_of_le hub ?_
    exact zpow_le_zpow_right₀ one_le_two (by omega)
  · refine ⟨(cle_iff a b hb _).mp h2, ?_⟩
    exact not_le.mp (fun hle => h1 ((cle_iff a b hb _).mpr hle))
  · refine ⟨hlb, ?_⟩
    have h3 : (a : ℚ) / b < (2 : ℚ) ^ ((nlog2 a : Int) - nlog2 b) :=
      not_le.mp (fun hle => h2 ((cle_iff a b hb _).mpr hle))
    rw [show (nlog2 a : Int) - nlog2 b - 1 + 1 = (nlog2 a : Int) - nlog2 b by ring]
    exact h3

theorem rheN_ge (num den : Nat) : num / den ≤ rheN num den := by
  unfold rheN
  split_ifs <;> omega

theorem rheN_le (num den : Nat) : rheN num den ≤ num / den + 1 := by
  unfold rheN
  split_ifs <;> omega

theorem rheN_exact (c den : Nat) (hd : 1 ≤ den) : rheN (c * den) den = c := by
  unfold rheN
  rw [Nat.mul_div_cancel _ (by omega : 0 < den), Nat.mul_mod_left]
  split_ifs <;> omega

theorem rheN_resolved (q s den : Nat) (hs : s < den) :
    rheN (den * q + s) den = if 2 * s < den then q
      else if den < 2 * s then q + 1
      else if q % 2 = 0 then q else q + 1 := by
  unfold rheN
  rw [Nat.mul_add_div (by omega : 0 < den), Nat.div_eq_of_lt hs,
    Nat.mul_add_mod, Nat.mod_eq_of_lt hs, Nat.add_zero]

theorem rheN_mono (d1 d2 : Nat) (hd1 : 1 ≤ d1) (hd2 : 1 ≤ d2) :
    ∀ (n1 n2 : Nat), n1 * d2 ≤ n2 * d1 → rheN n1 d1 ≤ rheN n2 d2 := by
  intro n1 n2 h
  obtain ⟨q1, s1, hs1, rfl⟩ : ∃ q s, s < d1 ∧ n1 = d1 * q + s :=
    ⟨n1 / d1, n1 % d1, Nat.mod_lt _ (by omega), (Nat.div_add_mod n1 d1).symm⟩
  obtain ⟨q2, s2, hs2, rfl⟩ : ∃ q s, s < d2 ∧ n2 = d2 * q + s :=
    ⟨n2 / d2, n2 % d2, Nat.mod_lt _ (by omega), (Nat.div_add_mod n2 d2).symm⟩
  rw [rheN_resolved q1 s1 d1 hs1, rheN_resolved q2 s2 d2 hs2]
  have hqle : q1 ≤ q2 := by
    by_contra hcon
    push_neg at hcon
    have hchain : (d1 * q1 + s1) * d2 < (d1 * q1 + s1) * d2 := by
      calc (d1 * q1 + s1) * d2 ≤ (d2 * q2 + s2) * d1 := h
        _ < d2 * (q2 + 1) * d1 := by
          have hx : d2 * q2 + s2 < d2 * (q2 + 1) := by
            calc d2 * q2 + s2 < d2 * q2 + d2 := by omega
              _ = d2 * (q2 + 1) := by ring
          exact mul_lt_mul_of_pos_right hx (by omega)
        _ ≤ d2 * q1 * d1 := by
          refine Nat.mul_le_mul_right _ ?_
          exact Nat.mul_le_mul_left _ hcon
        _ ≤ d2 * (d1 * q1 + s1) := by
          calc d2 * q1 * d1 = d2 * (d1 * q1) := by ring
            _ ≤ d2 * (d1 * q1 + s1) := Nat.mul_le_mul_left _ (by omega)
        _ = (d1 * q1 + s1) * d2 := by ring
    exact absurd hchain (lt_irrefl _)
  rcases Nat.lt_or_ge q1 q2 with hlt | hge
  · split_ifs <;> omega
  · have hq : q1 = q2 := by omega
    subst hq
    have hfrac : s1 * d2 ≤ s2 * d1 := by
      have hx : d1 * q1 * d2 + s1 * d2 ≤ d1 * q1 * d2 + s2 * d1 := by
        calc d1 * q1 * d2 + s1 * d2 = (d1 * q1 + s1) * d2 := by ring
          _ ≤ (d2 * q1 + s2) * d1 := h
          _ = d1 * q1 * d2 + s2 * d1 := by ring
      exact Nat.le_of_add_le_add_left hx
    have hmid : 2 * s1 * d2 ≤ 2 * s2 * d1 := by
      calc 2 * s1 * d2 = 2 * (s1 * d2) := by ring
        _ ≤ 2 * (s2 * d1) := Nat.mul_le_mul_left _ hfrac
        _ = 2 * s2 * d1 := by ring
    have hbad1 : d1 < 2 * s1 → 2 * s2 ≤ d2 → False := by
      intro hb1 hb2
      have t1 : d1 * d2 < 2 * s1 * d2 := mul_lt_mul_of_pos_right hb1 (by omega)
      have t3 : 2 * s2 * d1 ≤ d2 * d1 := Nat.mul_le_mul_right _ hb2
      have t4 : d2 * d1 = d1 * d2 := by ring
      exact absurd t1 (not_lt.mpr (le_of_le_of_eq (hmid.trans t3) t4))
    have hbad2 : d1 ≤ 2 * s1 → 2 * s2 < d2 → False := by
      intro hb1 hb2
      have t1 : d1 * d2 ≤ 2 * s1 * d2 := Nat.mul_le_mul_right _ hb1
      have t3 : 2 * s2 * d1 < d2 * d1 := mul_lt_mul_of_pos_right hb2 (by omega)
      have t4 : d2 * d1 = d1 * d2 := by ring
      exact absurd (lt_of_le_of_lt (t1.trans hmid) (lt_of_lt_of_eq t3 t4))
        (lt_irrefl _)
    split_ifs <;>
      first
        | omega
        | exact ((hbad1 (by omega) (by omega)).elim)
        | exact ((hbad2 (by omega) (by omega)).elim)

theorem roundPosPair_eq (a b : Nat) :
    roundPosPair a b
      = (rheN (a * 2 ^ ((52 : Int) - elog a b).toNat)
          (b * 2 ^ (elog a b - (52 : Int)).toNat), elog a b) := rfl

theorem two_zpow_pE (E k : Int) (hk : 0 ≤ k) :
    (2 : ℚ) ^ E * (2 : ℚ) ^ (k - E).toNat
      = (2 : ℚ) ^ k.toNat * (2 : ℚ) ^ (E - k).toNat := by
  rw [two_zpow_split (k - E), ← mul_assoc,
    ← zpow_add₀ (by norm_num : (2 : ℚ) ≠ 0),
    show E + (k - E) = k by ring,
    show -(k - E) = E - k by ring]
  congr 1
  rw [← two_zpow_cast_pow k.toNat, Int.toNat_of_nonneg hk]

theorem roundPosPair_scaled (a b : Nat) (ha : 1 ≤ a) (hb : 1 ≤ b) :
    b * 2 ^ (elog a b - (52 : Int)).toNat * 2 ^ 52
      ≤ a * 2 ^ ((52 : Int) - elog a b).toNat ∧
    a * 2 ^ ((52 : Int) - elog a b).toNat
      < b * 2 ^ (elog a b - (52 : Int)).toNat * 2 ^ 53 := by
  obtain ⟨hl, hu⟩ := elog_spec a b ha hb
  have hbQ : (0 : ℚ) < b := by exact_mod_cast hb
  have hp : (0 : ℚ) < (2 : ℚ) ^ ((52 : Int) - elog a b).toNat := by positivity
  have hkey := two_zpow_pE (elog a b) 52 (by norm_num)
  have hkey53 : (2 : ℚ) ^ (elog a b + 1) * (2 : ℚ) ^ ((52 : Int) - elog a b).toNat
      = (2 : ℚ) ^ (53 : Nat) * (2 : ℚ) ^ (elog a b - (52 : Int)).toNat := by
    have h2 := two_zpow_pE (elog a b + 1) 53 (by norm_num)
    rw [show (53 : Int) - (elog a b + 1) = (52 : Int) - elog a b by ring,
      show elog a b + 1 - (53 : Int) = elog a b - (52 : Int) by ring] at h2
    rw [h2, show Int.toNat 53 = 53 from rfl]
  have hkey52 : (2 : ℚ) ^ elog a b * (2 : ℚ) ^ ((52 : Int) - elog a b).toNat
      = (2 : ℚ) ^ (52 : Nat) * (2 : ℚ) ^ (elog a b - (52 : Int)).toNat := by
    rw [hkey, show Int.toNat 52 = 52 from rfl]
  constructor
  · rw [← Nat.cast_le (α := ℚ)]
    push_cast
    have h1 : (2 : ℚ) ^ elog a b * b ≤ a := (le_div_iff hbQ).mp hl
    have h2 : (2 : ℚ) ^ elog a b * b * (2 : ℚ) ^ ((52 : Int) - elog a b).toNat
        ≤ (a : ℚ) * (2 : ℚ) ^ ((52 : Int) - elog a b).toNat :=
      mul_le_mul_of_nonneg_right h1 hp.le
    calc (b : ℚ) * (2 : ℚ) ^ (elog a b - (52 : Int)).toNat * 2 ^ 52
        = (2 : ℚ) ^ elog a b * b * (2 : ℚ) ^ ((52 : Int) - elog a b).toNat := by
          linear_combination (-(b : ℚ)) * hkey52
      _ ≤ (a : ℚ) * (2 : ℚ) ^ ((52 : Int) - elog a b).toNat := h2
  · rw [← Nat.cast_lt (α := ℚ)]
    push_cast
    have h1 : (a : ℚ) < (2 : ℚ) ^ (elog a b + 1) * b := by
      have := (div_lt_iff hbQ).mp hu
      linarith [this]
    calc (a : ℚ) * (2 : ℚ) ^ ((52 : Int) - elog a b).toNat
        < (2 : ℚ) ^ (elog a b + 1) * b * (2 : ℚ) ^ ((52 : Int) - elog a b).toNat :=
          mul_lt_mul_of_pos_right h1 hp
      _ = (b : ℚ) * (2 : ℚ) ^ (elog a b - (52 : Int)).toNat * 2 ^ 53 := by
          linear_combination (b : ℚ) * hkey53

theorem roundPosPair_m_bounds (a b : Nat) (ha : 1 ≤ a) (hb : 1 ≤ b) :
    2 ^ 52 ≤ (roundPosPair a b).1 ∧ (roundPosPair a b).1 ≤ 2 ^ 53 := by
  obtain ⟨hl, hu⟩ := roundPosPair_scaled a b ha hb
  have hd : 1 ≤ b * 2 ^ (elog a b - (52 : Int)).toNat :=
    Nat.mul_pos (by omega) (Nat.pow_pos (by norm_num))
  rw [roundPosPair_eq]
  constructor
  · have h1 : rheN (2 ^ 52 * (b * 2 ^ (elog a b - (52 : Int)).toNat))
        (b * 2 ^ (elog a b - (52 : Int)).toNat)
        ≤ rheN (a * 2 ^ ((52 : Int) - elog a b).toNat)
            (b * 2 ^ (elog a b - (52 : Int)).toNat) := by
      apply rheN_mono _ _ hd hd
      apply Nat.mul_le_mul_right
      calc 2 ^ 52 * (b * 2 ^ (elog a b - (52 : Int)).toNat)
          = b * 2 ^ (elog a b - (52 : Int)).toNat * 2 ^ 52 := by ring
        _ ≤ a * 2 ^ ((52 : Int) - elog a b).toNat := hl
    rw [rheN_exact _ _ hd] at h1
    exact h1
  · have h1 : rheN (a * 2 ^ ((52 : Int) - elog a b).toNat)
        (b * 2 ^ (elog a b - (52 : Int)).toNat)
        ≤ rheN (2 ^ 53 * (b * 2 ^ (elog a b - (52 : Int)).toNat))
            (b * 2 ^ (elog a b - (52 : Int)).toNat) := by
      apply rheN_mono _ _ hd hd
      apply Nat.mul_le_mul_right
      calc a * 2 ^ ((52 : Int) - elog a b).toNat
          ≤ b * 2 ^ (elog a b - (52 : Int)).toNat * 2 ^ 53 := le_of_lt hu
        _ = 2 ^ 53 * (b * 2 ^ (elog a b - (52 : Int)).toNat) := by ring
    rw [rheN_exact _ _ hd] at h1
    exact h1

theorem elog_mono (a1 b1 a2 b2 : Nat) (ha1 : 1 ≤ a1) (hb1 : 1 ≤ b1)
    (ha2 : 1 ≤ a2) (hb2 : 1 ≤ b2) (h : a1 * b2 ≤ a2 * b1) :
    elog a1 b1 ≤ elog a2 b2 := by
  obtain ⟨hl1, hu1⟩ := elog_spec a1 b1 ha1 hb1
  obtain ⟨hl2, hu2⟩ := elog_spec a2 b2 ha2 hb2
  have hb1Q : (0 : ℚ) < b1 := by exact_mod_cast hb1
  have hb2Q : (0 : ℚ) < b2 := by exact_mod_cast hb2
  have hdiv : (a1 : ℚ) / b1 ≤ (a2 : ℚ) / b2 := by
    rw [div_le_div_iff hb1Q hb2Q]
    exact_mod_cast h
  have hlt : (2 : ℚ) ^ elog a1 b1 < (2 : ℚ) ^ (elog a2 b2 + 1) :=
    lt_of_le_of_lt (hl1.trans hdiv) hu2
  by_contra hcon
  push_neg at hcon
  have hge : (2 : ℚ) ^ (elog a2 b2 + 1) ≤ (2 : ℚ) ^ elog a1 b1 :=
    zpow_le_zpow_right₀ one_le_two (by omega)
  exact absurd hlt (not_lt.mpr hge)

theorem elog_self (a : Nat) (ha : 1 ≤ a) : elog a a = 0 := by
  obtain ⟨hl, hu⟩ := elog_spec a a ha ha
  have haQ : (0 : ℚ) < a := by exact_mod_cast ha
  rw [div_self haQ.ne'] at hl hu
  by_contra hne
  rcases lt_or_gt_of_ne hne with hlt | hgt
  · have h1 : (2 : ℚ) ^ (elog a a + 1) ≤ (2 : ℚ) ^ (0 : Int) :=
      zpow_le_zpow_right₀ one_le_two (by omega)
    rw [zpow_zero] at h1
    exact absurd hu (not_lt.mpr h1)
  · have h1 : (2 : ℚ) ^ (0 : Int) ≤ (2 : ℚ) ^ (elog a a - 1) :=
      zpow_le_zpow_right₀ one_le_two (by omega)
    rw [zpow_zero] at h1
    have h2 : (2 : ℚ) ^ (elog a a - 1) * 2 = (2 : ℚ) ^ elog a a := by
      rw [← zpow_add_one₀ (by norm_num : (2 : ℚ) ≠ 0)]
      congr 1
      ring
    have h3 : (2 : ℚ) ≤ (2 : ℚ) ^ elog a a := by
      rw [← h2]
      nlinarith [h1]
    linarith [hl, h3]

theorem fdivF_self (n : Nat) (hn : 1 ≤ n) : fdivF n n = (2 ^ 52, 0) := by
  have hne : ((n : Int)) ≠ 0 := by exact_mod_cast (by omega : n ≠ 0)
  rw [fdivF, froundZ, if_neg hne, if_pos (by positivity : (0 : Int) ≤ (n : Int))]
  rw [Int.toNat_natCast, roundPosPair_eq, elog_self n hn,
    show ((52 : Int) - 0).toNat = 52 by decide,
    show ((0 : Int) - 52).toNat = 0 by decide,
    pow_zero, Nat.mul_one, show n * 2 ^ 52 = 2 ^ 52 * n by ring,
    rheN_exact _ _ hn]
  norm_num

theorem froundZ_fst_nonneg (num : Int) (den : Nat) (h : 0 ≤ num) :
    0 ≤ (froundZ num den).1 := by
  by_cases h0 : num = 0
  · rw [froundZ, if_pos h0]
  · rw [froundZ, if_neg h0, if_pos h]
    exact Int.natCast_nonneg _

theorem fval_nonneg_of_fst (x : Int × Int) (h : 0 ≤ x.1) : 0 ≤ fval x :=
  mul_nonneg (by exact_mod_cast h) (zpow_nonneg (by norm_num) _)

theorem fval_pair (m : Nat) (E : Int) :
    fval ((m : Int), E) = (m : ℚ) * (2 : ℚ) ^ (E - 52) := by
  rw [fval]
  push_cast
  ring

theorem roundPosPair_val_mono (a1 b1 a2 b2 : Nat) (ha1 : 1 ≤ a1) (hb1 : 1 ≤ b1)
    (ha2 : 1 ≤ a2) (hb2 : 1 ≤ b2) (h : a1 * b2 ≤ a2 * b1) :
    ((roundPosPair a1 b1).1 : ℚ) * (2 : ℚ) ^ ((roundPosPair a1 b1).2 - 52)
      ≤ ((roundPosPair a2 b2).1 : ℚ) * (2 : ℚ) ^ ((roundPosPair a2 b2).2 - 52) := by
  have hE := elog_mono a1 b1 a2 b2 ha1 hb1 ha2 hb2 h
  obtain ⟨hm1l, hm1u⟩ := roundPosPair_m_bounds a1 b1 ha1 hb1
  obtain ⟨hm2l, hm2u⟩ := roundPosPair_m_bounds a2 b2 ha2 hb2
  rcases eq_or_lt_of_le hE with hEe | hElt
  · have hd1 : 1 ≤ b1 * 2 ^ (elog a1 b1 - (52 : Int)).toNat :=
      Nat.mul_pos (by omega) (Nat.pow_pos (by norm_num))
    have hd2 : 1 ≤ b2 * 2 ^ (elog a2 b2 - (52 : Int)).toNat :=
      Nat.mul_pos (by omega) (Nat.pow_pos (by norm_num))
    have hm : rheN (a1 * 2 ^ ((52 : Int) - elog a1 b1).toNat)
        (b1 * 2 ^ (elog a1 b1 - (52 : Int)).toNat)
        ≤ rheN (a2 * 2 ^ ((52 : Int) - elog a2 b2).toNat)
            (b2 * 2 ^ (elog a2 b2 - (52 : Int)).toNat) := by
      apply rheN_mono _ _ hd1 hd2
      rw [← hEe]
      calc a1 * 2 ^ ((52 : Int) - elog a1 b1).toNat
            * (b2 * 2 ^ (elog a1 b1 - (52 : Int)).toNat)
          = a1 * b2 * (2 ^ ((52 : Int) - elog a1 b1).toNat
              * 2 ^ (elog a1 b1 - (52 : Int)).toNat) := by ring
        _ ≤ a2 * b1 * (2 ^ ((52 : Int) - elog a1 b1).toNat
              * 2 ^ (elog a1 b1 - (52 : Int)).toNat) := Nat.mul_le_mul_right _ h
        _ = a2 * 2 ^ ((52 : Int) - elog a1 b1).toNat
              * (b1 * 2 ^ (elog a1 b1 - (52 : Int)).toNat) := by ring
    have hE2 : (roundPosPair a1 b1).2 = (roundPosPair a2 b2).2 := hEe
    rw [hE2]
    have hmQ : ((roundPosPair a1 b1).1 : ℚ) ≤ ((roundPosPair a2 b2).1 : ℚ) := by
      exact_mod_cast
        (show (roundPosPair a1 b1).1 ≤ (roundPosPair a2 b2).1 from hm)
    exact mul_le_mul_of_nonneg_right hmQ (zpow_nonneg (by norm_num) _)
  · have hE1 : (roundPosPair a1 b1).2 = elog a1 b1 := by rw [roundPosPair_eq]
    have hE2 : (roundPosPair a2 b2).2 = elog a2 b2 := by rw [roundPosPair_eq]
    rw [hE1, hE2]
    have hm1uQ : ((roundPosPair a1 b1).1 : ℚ) ≤ (2 : ℚ) ^ (53 : Nat) := by
      exact_mod_cast hm1u
    have hm2lQ : (2 : ℚ) ^ (52 : Nat) ≤ ((roundPosPair a2 b2).1 : ℚ) := by
      exact_mod_cast hm2l
    calc ((roundPosPair a1 b1).1 : ℚ) * (2 : ℚ) ^ (elog a1 b1 - 52)
        ≤ (2 : ℚ) ^ (53 : Nat) * (2 : ℚ) ^ (elog a1 b1 - 52) :=
          mul_le_mul_of_nonneg_right hm1uQ (zpow_nonneg (by norm_num) _)
      _ = (2 : ℚ) ^ (elog a1 b1 + 1) := by
          rw [← two_zpow_cast_pow 53, ← zpow_add₀ (by norm_num : (2 : ℚ) ≠ 0)]
          congr 1
          push_cast
          ring
      _ ≤ (2 : ℚ) ^ elog a2 b2 := zpow_le_zpow_right₀ one_le_two (by omega)
      _ = (2 : ℚ) ^ (52 : Nat) * (2 : ℚ) ^ (elog a2 b2 - 52) := by
          rw [← two_zpow_cast_pow 52, ← zpow_add₀ (by norm_num : (2 : ℚ) ≠ 0)]
          congr 1
          push_cast
          ring
      _ ≤ ((roundPosPair a2 b2).1 : ℚ) * (2 : ℚ) ^ (elog a2 b2 - 52) :=
          mul_le_mul_of_nonneg_right hm2lQ (zpow_nonneg (by norm_num) _)

theorem froundZ_val_mono (num1 num2 : Int) (den1 den2 : Nat)
    (h1 : 0 ≤ num1) (hd1 : 1 ≤ den1) (hd2 : 1 ≤ den2)
    (h : (num1 : ℚ) / den1 ≤ (num2 : ℚ) / den2) :
    fval (froundZ num1 den1) ≤ fval (froundZ num2 den2) := by
  have hd1Q : (0 : ℚ) < den1 := by exact_mod_cast hd1
  have hd2Q : (0 : ℚ) < den2 := by exact_mod_cast hd2
  have h2 : 0 ≤ num2 := by
    by_contra hneg
    push_neg at hneg
    have hv2 : (num2 : ℚ) / den2 < 0 :=
      div_neg_of_neg_of_pos (by exact_mod_cast hneg) hd2Q
    have hv1 : (0 : ℚ) ≤ (num1 : ℚ) / den1 :=
      div_nonneg (by exact_mod_cast h1) hd1Q.le
    linarith
  rcases eq_or_lt_of_le h1 with hz1 | hp1
  · have he : froundZ num1 den1 = (0, 0) := by
      rw [froundZ, if_pos hz1.symm]
    rw [he]
    have h0 : fval ((0, 0) : Int × Int) = 0 := by
      rw [fval]
      norm_num
    rw [h0]
    exact fval_nonneg_of_fst _ (froundZ_fst_nonneg num2 den2 h2)
  · have hv1 : (0 : ℚ) < (num1 : ℚ) / den1 :=
      div_pos (by exact_mod_cast hp1) hd1Q
    have hv2 : (0 : ℚ) < (num2 : ℚ) / den2 := lt_of_lt_of_le hv1 h
    have hp2 : 0 < num2 := by
      rcases div_pos_iff.mp hv2 with ⟨ha, _⟩ | ⟨_, hb⟩
      · exact_mod_cast ha
      · exact absurd hd2Q (not_lt.mpr hb.le)
    have he1 : froundZ num1 den1
        = (((roundPosPair num1.toNat den1).1 : Int),
            (roundPosPair num1.toNat den1).2) := by
      rw [froundZ, if_neg (by omega), if_pos h1]
    have he2 : froundZ num2 den2
        = (((roundPosPair num2.toNat den2).1 : Int),
            (roundPosPair num2.toNat den2).2) := by
      rw [froundZ, if_neg (by omega), if_pos h2]
    rw [he1, he2, fval_pair, fval_pair]
    apply roundPosPair_val_mono _ _ _ _ (by omega) hd1 (by omega) hd2
    have hZ : num1 * den2 ≤ num2 * den1 := by
      rw [div_le_div_iff hd1Q hd2Q] at h
      exact_mod_cast h
    rw [← Nat.cast_le (α := ℤ)]
    push_cast
    rw [Int.toNat_of_nonneg h1, Int.toNat_of_nonneg h2]
    exact hZ

theorem fmulF_arg (x y : Int × Int) :
    ((x.1 * y.1 * 2 ^ (x.2 - 52).toNat * 2 ^ (y.2 - 52).toNat : Int) : ℚ)
      / ((2 ^ ((52 : Int) - x.2).toNat * 2 ^ ((52 : Int) - y.2).toNat : Nat) : ℚ)
      = fval x * fval y := by
  rw [fval, fval, div_eq_iff (by positivity)]
  push_cast
  rw [two_zpow_split (x.2 - 52), two_zpow_split (y.2 - 52),
    show -(x.2 - 52) = (52 : Int) - x.2 by ring,
    show -(y.2 - 52) = (52 : Int) - y.2 by ring]
  ring

theorem fmulF_val_mono_left (x1 x2 y : Int × Int) (hx1 : 0 ≤ x1.1)
    (hy : 0 ≤ y.1) (h : fval x1 ≤ fval x2) :
    fval (fmulF x1 y) ≤ fval (fmulF x2 y) := by
  rw [fmulF, fmulF]
  apply froundZ_val_mono _ _ _ _
    (by positivity)
    (Nat.mul_pos (Nat.pow_pos (by norm_num)) (Nat.pow_pos (by norm_num)))
    (Nat.mul_pos (Nat.pow_pos (by norm_num)) (Nat.pow_pos (by norm_num)))
  rw [fmulF_arg, fmulF_arg]
  exact mul_le_mul_of_nonneg_right h (fval_nonneg_of_fst y hy)

theorem fintF_toNat_floor (s : Int × Int) (h : 0 ≤ s.1) :
    (fintF s).toNat = Nat.floor (fval s) := by
  rw [fintF, if_pos h, Int.toNat_natCast]
  have hv : fval s = ((s.1.toNat * 2 ^ (s.2 - 52).toNat : Nat) : ℚ)
      / ((2 ^ ((52 : Int) - s.2).toNat : Nat) : ℚ) := by
    have hc : ((s.1.toNat : Nat) : ℚ) = ((s.1 : Int) : ℚ) := by
      exact_mod_cast Int.toNat_of_nonneg h
    rw [fval, eq_div_iff (by positivity)]
    push_cast
    rw [hc, two_zpow_split (s.2 - 52),
      show -(s.2 - 52) = (52 : Int) - s.2 by ring]
    ring
  rw [hv, Nat.floor_div_nat, Nat.floor_natCast]

theorem pyProgress_zero (n : Nat) : pyProgress 0 n = 0 := by
  have h1 : fdivF 0 n = (0, 0) := rfl
  have h2 : fmulF (0, 0) (toF64 100) = (0, 0) := by
    rw [fmulF, froundZ]
    norm_num
  rw [pyProgress, h1, h2]
  rfl

set_option maxRecDepth 10000 in
theorem pyProgress_last (n : Nat) (hn : 1 ≤ n) : pyProgress n n = 100 := by
  rw [pyProgress, fdivF_self n hn]
  decide

theorem pyProgress_mono (i j n : Nat) (hij : i ≤ j) (hn : 1 ≤ n) :
    pyProgress i n ≤ pyProgress j n := by
  have hnQ : (0 : ℚ) < n := by exact_mod_cast hn
  have hdiv : fval (fdivF i n) ≤ fval (fdivF j n) := by
    rw [fdivF, fdivF]
    apply froundZ_val_mono _ _ _ _ (Int.natCast_nonneg i) hn hn
    apply div_le_div_of_nonneg_right ?_ hnQ.le
    exact_mod_cast hij
  have h100 : (0 : Int) ≤ (toF64 100).1 := by decide
  have hmul : fval (fmulF (fdivF i n) (toF64 100))
      ≤ fval (fmulF (fdivF j n) (toF64 100)) :=
    fmulF_val_mono_left _ _ _
      (froundZ_fst_nonneg _ _ (Int.natCast_nonneg i)) h100 hdiv
  have hfst : ∀ m : Nat, 0 ≤ (fmulF (fdivF m n) (toF64 100)).1 := by
    intro m
    rw [fmulF]
    apply froundZ_fst_nonneg
    have hb : (0 : Int) ≤ (fdivF m n).1 :=
      froundZ_fst_nonneg _ _ (Int.natCast_nonneg m)
    positivity
  rw [pyProgress, pyProgress, fintF_toNat_floor _ (hfst i),
    fintF_toNat_floor _ (hfst j)]
  exact Nat.floor_mono hmul

theorem pyProgress_le_100 (i n : Nat) (hi : i ≤ n) (hn : 1 ≤ n) :
    pyProgress i n ≤ 100 := by
  calc pyProgress i n ≤ pyProgress n n := pyProgress_mono i n n hi hn
    _ = 100 := pyProgress_last n hn

theorem fdivF_zero (n : Nat) : fdivF 0 n = (0, 0) := rfl

theorem fmulF_zero_right (x : Int × Int) : fmulF x (0, 0) = (0, 0) := by
  rw [fmulF]
  norm_num [froundZ]

set_option maxRecDepth 10000 in
set_option maxHeartbeats 4000000 in
theorem pyGradChannel_zero (c1 : Nat) (hc : c1 ≤ 255) (c2 n : Nat) :
    pyGradChannel c1 c2 0 n = c1 := by
  have hsub : fsubF (toF64 1) (0, 0) = (2 ^ 52, 0) := by decide
  have key : ∀ c, c < 256 →
      (fintF (faddF (fmulF (toF64 c) (2 ^ 52, 0)) (0, 0))).toNat = c := by
    decide
  have h := key c1 (by omega)
  simp only [pyGradChannel, fdivF_zero, fmulF_zero_right, hsub]
  exact h

theorem pyGradColor_zero (A B : RGB) (hA : A.r ≤ 255 ∧ A.g ≤ 255 ∧ A.b ≤ 255)
    (n : Nat) : pyGradColor A B 0 n = A := by
  obtain ⟨h1, h2, h3⟩ := hA
  rw [pyGradColor, pyGradChannel_zero A.r h1, pyGradChannel_zero A.g h2,
    pyGradChannel_zero A.b h3]

theorem create_gradient_length (w h : Nat) (A B : RGB) (dir : String) :
    (create_gradient w h A B dir).length
      = (if dir = "vertical" then h else w) := by
  rw [create_gradient]
  simp

theorem create_gradient_getElem (w h : Nat) (A B : RGB) (dir : String)
    (i : Nat) :
    (create_gradient w h A B dir)[i]?
      = if i < (if dir = "vertical" then h else w)
        then some (pyGradColor A B i (if dir = "vertical" then h else w))
        else none := by
  rw [create_gradient]
  by_cases hi : i < (if dir = "vertical" then h else w)
  · rw [if_pos hi, List.getElem?_map, List.getElem?_range hi]
    rfl
  · rw [if_neg hi, List.getElem?_map, List.getElem?_eq_none
      (by simpa using not_lt.mp hi)]
    rfl

theorem create_gradient_head (w h : Nat) (A B : RGB) (dir : String)
    (hpos : 1 ≤ (if dir = "vertical" then h else w))
    (hA : A.r ≤ 255 ∧ A.g ≤ 255 ∧ A.b ≤ 255) :
    (create_gradient w h A B dir).head? = some A := by
  rw [create_gradient]
  obtain ⟨m, hm⟩ : ∃ m, (if dir = "vertical" then h else w) = m + 1 :=
    ⟨(if dir = "vertical" then h else w) - 1, by omega⟩
  rw [hm, List.range_succ_eq_map, List.map_cons, List.head?_cons,
    pyGradColor_zero A B hA]

theorem create_gradient_last (w h : Nat) (A B : RGB) (dir : String)
    (hpos : 1 ≤ (if dir = "vertical" then h else w)) :
    (create_gradient w h A B dir).getLast?
      = some (pyGradColor A B ((if dir = "vertical" then h else w) - 1)
          (if dir = "vertical" then h else w)) := by
  rw [create_gradient]
  obtain ⟨m, hm⟩ : ∃ m, (if dir = "vertical" then h else w) = m + 1 :=
    ⟨(if dir = "vertical" then h else w) - 1, by omega⟩
  rw [hm, List.range_succ, List.map_append, List.map_cons, List.map_nil,
    List.getLast?_concat]
  norm_num

theorem colorDist_comm (a b : RGB) : colorDist a b = colorDist b a := by
  simp [colorDist, Nat.dist_comm]

theorem foldl_firstKeys_mem (m : Nat) (p : RGB) (acc : List RGB) (h : p ∈ acc) :
    List.foldl (fun acc2 q => if q ∈ acc2 then acc2 else acc2 ++ [q]) acc
      (List.replicate m p) = acc := by
  induction m with
  | zero => rfl
  | succ k ih => simp [List.replicate_succ, List.foldl_cons, h, ih]

theorem firstKeys_replicate (n : Nat) (hn : 1 ≤ n) (p : RGB) :
    firstKeys (List.replicate n p) = [p] := by
  obtain ⟨k, rfl⟩ : ∃ k, n = k + 1 := ⟨n - 1, by omega⟩
  unfold firstKeys
  rw [List.replicate_succ, List.foldl_cons]
  simp only [List.not_mem_nil, if_neg (fun h => h), List.nil_append]
  exact foldl_firstKeys_mem k p [p] (by simp)

theorem mostCommon_replicate (n : Nat) (hn : 1 ≤ n) (p : RGB) (m : Nat)
    (hm : 1 ≤ m) : mostCommon (List.replicate n p) m = [p] := by
  unfold mostCommon
  rw [firstKeys_replicate n hn p]
  simp [List.insertionSort, List.orderedInsert]
  omega

theorem extractCounted_replicate (n : Nat) (p : RGB) :
    extractCounted (List.replicate n p) = List.replicate n p := by
  unfold extractCounted
  cases hk : keepPixel p with
  | true => simp [List.filter_replicate, hk]
  | false =>
    have h0 : (List.replicate n p).filter keepPixel = [] := by
      simp [List.filter_replicate, hk]
    simp [h0]

theorem extract_colors_fallback_replicate (n : Nat) (hn : 1 ≤ n) (p : RGB) :
    extract_colors_fallback (List.replicate n p) = [p, darken p, darken p] := by
  unfold extract_colors_fallback
  rw [extractCounted_replicate n p, mostCommon_replicate n hn p 15 (by omega)]
  have hsel : greedyPick [p] [] 3 = [p] := rfl
  rw [hsel]
  rfl

theorem greedyPick_length_le (l : List RGB) (sel : List RGB) (k : Nat)
    (h : sel.length < k) : (greedyPick l sel k).length ≤ k := by
  induction l generalizing sel with
  | nil => simpa [greedyPick] using Nat.le_of_lt h
  | cons c rest ih =>
    unfold greedyPick
    by_cases hc : (sel.isEmpty || sel.all fun s => decide (80 < colorDist c s)) = true
    · simp only [hc, if_true]
      by_cases hk : k ≤ (sel ++ [c]).length
      · simp only [hk, if_pos]
        simp only [List.length_append, List.length_singleton]
        omega
      · simp only [hk, if_neg, if_false]
        exact ih _ (by simp only [List.length_append, List.length_singleton] at hk ⊢; omega)
    · simp only [Bool.not_eq_true] at hc
      simp only [hc, Bool.false_eq_true, if_false]
      exact ih _ h

theorem greedyPick_pairwise (l : List RGB) (sel : List RGB) (k : Nat)
    (hsel : List.Pairwise (fun a b => 80 < colorDist a b) sel) :
    List.Pairwise (fun a b => 80 < colorDist a b) (greedyPick l sel k) := by
  induction l generalizing sel with
  | nil => simpa [greedyPick] using hsel
  | cons c rest ih =>
    unfold greedyPick
    by_cases hc : (sel.isEmpty || sel.all fun s => decide (80 < colorDist c s)) = true
    · have hall : ∀ s ∈ sel, 80 < colorDist s c := by
        intro s hs
        rcases Bool.or_eq_true_iff.mp hc with hemp | hempall
        · rw [List.isEmpty_iff] at hemp
          subst hemp
          simp at hs
        · have := List.all_eq_true.mp hempall s hs
          rw [colorDist_comm]
          exact of_decide_eq_true this
      have hpair2 : List.Pairwise (fun a b => 80 < colorDist a b) (sel ++ [c]) := by
        rw [List.pairwise_append]
        refine ⟨hsel, List.pairwise_singleton _ _, ?_⟩
        intro a ha b hb
        simp only [List.mem_singleton] at hb
        subst hb
        exact hall a ha
      simp only [hc, if_true]
      by_cases hk : k ≤ (sel ++ [c]).length
      · simp only [hk, if_pos]; exact hpair2
      · simp only [hk, if_neg, if_false]; exact ih _ hpair2
    · simp only [Bool.not_eq_true] at hc
      simp only [hc, Bool.false_eq_true, if_false]
      exact ih _ hsel

/-- Claim C6 counterexample: a uniform dark-red logo image (all 22500 pixels of
the 150x150 resample are `(100,10,10)`) makes the fallback path select one
color and pad twice with the same darkened copy `(60,0,0)`: the returned
palette has two identical entries (distance 0 ≤ 80), and even the first
selected color is within distance 80 of its darkened padding — the claimed
de-duplication does not hold for padding entries. -/
theorem extract_colors_dedup_counterexample :
    extract_colors_fallback (List.replicate 22500 ⟨100, 10, 10⟩)
      = [⟨100, 10, 10⟩, ⟨60, 0, 0⟩, ⟨60, 0, 0⟩] ∧
    colorDist ⟨60, 0, 0⟩ ⟨60, 0, 0⟩ ≤ 80 ∧
    colorDist ⟨100, 10, 10⟩ ⟨60, 0, 0⟩ ≤ 80 := by
  refine ⟨?_, by decide, by decide⟩
  rw [extract_colors_fallback_replicate 22500 (by omega) ⟨100, 10, 10⟩]
  rfl

/-- Claim C6 amended: every palette produced by the fallback extraction path has
exactly 3 entries, and the de-duplication (pairwise summed channel distance
strictly above 80) holds among the greedily selected entries; it does not
extend to the darkening-based padding entries, which can repeat the same
color (see the counterexample). -/
theorem extract_colors_fallback_amended (allPixels candidates : List RGB) :
    (extract_colors_fallback allPixels).length = 3 ∧
    List.Pairwise (fun a b => 80 < colorDist a b) (greedyPick candidates [] 3) := by
  constructor
  · unfold extract_colors_fallback
    have hlen : (greedyPick (mostCommon (extractCounted allPixels) 15) [] 3).length ≤ 3 :=
      greedyPick_length_le _ _ _ (by simp)
    cases hsel : greedyPick (mostCommon (extractCounted allPixels) 15) [] 3 with
    | nil => rfl
    | cons s0 tl =>
      rw [hsel] at hlen
      simp only [extractFinish, List.length_take, List.length_append,
        List.length_replicate, List.length_cons]
      omega
  · exact greedyPick_pairwise _ _ _ (List.Pairwise.nil)

/-- Claim C7 counterexample: on an all-white image (22500 pixels `(255,255,255)`,
every one filtered out by the near-white threshold) the fallback path does
not return the fixed neutral default palette: the `pixels or
list(img.getdata())` fallback counts the white pixels instead. -/
theorem extract_colors_all_white_counterexample :
    extract_colors_fallback (List.replicate 22500 ⟨255, 255, 255⟩)
      ≠ defaultPalette := by
  rw [extract_colors_fallback_replicate 22500 (by omega) ⟨255, 255, 255⟩]
  decide

/-- Claim C7 amended: on a decodable all-white image the fallback path does not
crash and returns the 3-color palette `[(255,255,255), (215,215,215),
(215,215,215)]` (white plus two copies of its darkening), rather than the
fixed neutral default, which is reserved for the exception path. -/
theorem extract_colors_all_white_amended :
    extract_colors_fallback (List.replicate 22500 ⟨255, 255, 255⟩)
      = [⟨255, 255, 255⟩, ⟨215, 215, 215⟩, ⟨215, 215, 215⟩] ∧
    (extract_colors_fallback (List.replicate 22500 ⟨255, 255, 255⟩)).length = 3 := by
  have h := extract_colors_fallback_replicate 22500 (by omega) ⟨255, 255, 255⟩
  constructor
  · rw [h]; rfl
  · rw [h]; rfl

/-- Claim C8 counterexample: a stored custom template whose source binds
`template_custom` to a non-function value (e.g. `template_custom = 5`;
definition-time validation only checks that the name is present, so such a
record can be stored, and external tampering can produce it regardless).
The evaluated namespace then defines no *function* named
`template_custom`, yet `get_template_function` returns the bound
non-function value as-is instead of the built-in variant 1. -/
theorem get_template_function_counterexample :
    get_template_function 9
      [{ id := 9, name := "t", description := "", code := "template_custom = 5" }]
      (fun _ => ExecOutcome.ok [("template_custom", PyValue.nonFunc 5)])
      = PyValue.nonFunc 5 ∧
    PyValue.nonFunc 5 ≠ PyValue.builtinTemplate 1 ∧
    isFunc (PyValue.nonFunc 5) = false := by
  refine ⟨rfl, by decide, rfl⟩

/-- Claim C8 amended: for every selected template id greater than 8,
`get_template_function` returns a value on every path (it never raises):
the built-in variant 1 function when no stored custom template has the
selected id, when evaluating the stored source raises, or when the
evaluated namespace does not bind the name `template_custom` at all; when
the namespace does bind `template_custom`, the bound value is returned
as-is — even when it is not a function. -/
theorem get_template_function_amended (selected : Nat)
    (customs : List CustomTemplate) (evalCode : String → ExecOutcome)
    (h8 : 8 < selected) :
    (customs.find? (fun t => t.id == selected) = none →
      get_template_function selected customs evalCode = PyValue.builtinTemplate 1) ∧
    (∀ t, customs.find? (fun t2 => t2.id == selected) = some t →
      (evalCode t.code = ExecOutcome.raises →
        get_template_function selected customs evalCode = PyValue.builtinTemplate 1) ∧
      (∀ ns, evalCode t.code = ExecOutcome.ok ns →
        (ns.lookup "template_custom" = none →
          get_template_function selected customs evalCode = PyValue.builtinTemplate 1) ∧
        (∀ v, ns.lookup "template_custom" = some v →
          get_template_function selected customs evalCode = v))) := by
  have h1 : selected ≠ 1 := by omega
  have h2 : selected ≠ 2 := by omega
  have h3 : selected ≠ 3 := by omega
  have h4 : selected ≠ 4 := by omega
  have h5 : selected ≠ 5 := by omega
  have h6 : selected ≠ 6 := by omega
  have h7 : selected ≠ 7 := by omega
  have h8e : selected ≠ 8 := by omega
  simp only [get_template_function, h1, h2, h3, h4, h5, h6, h7, h8e,
    if_false, ite_false]
  constructor
  · intro hfind
    rw [hfind]
  · intro t hfind
    rw [hfind]
    dsimp only
    constructor
    · intro hraise
      rw [hraise]
    · intro ns hok
      rw [hok]
      constructor
      · intro hlook
        simp [hlook]
      · intro v hlook
        simp [hlook]

/-- Claim C8 witness: the amended theorem applied at id 9 with no stored custom
templates. -/
theorem get_template_function_amended_witness :
    get_template_function 9 [] (fun _ => ExecOutcome.raises)
      = PyValue.builtinTemplate 1 :=
  (get_template_function_amended 9 [] (fun _ => ExecOutcome.raises)
    (by omega)).1 rfl

theorem outFile_beq_tempFile (s : String) (i : Nat) :
    (FPath.outFile s == FPath.tempFile i) = false := by
  rw [beq_eq_false_iff_ne]
  exact fun h => FPath.noConfusion h

theorem filter_not_temp_eq_self (l : List FPath) (i : Nat)
    (h : FPath.tempFile i ∉ l) :
    l.filter (fun f => !(f == FPath.tempFile i)) = l := by
  rw [List.filter_eq_self]
  intro a ha
  rw [Bool.not_eq_eq_eq_not, Bool.not_true, beq_eq_false_iff_ne]
  intro heq
  exact h (heq ▸ ha)

theorem processRecord_ok_eq (cfg : WorkerConfig) (orc : RecordOracles)
    (total : Nat) (st : WorkerState) (idx : Nat) (link : String)
    (hok : recordOk orc idx) (hnt : FPath.tempFile idx ∉ st.files) :
    processRecord cfg orc total st idx link =
      ({ st with
          formattedChunks := st.formattedChunks ++ [formattedEntry cfg idx link],
          files := st.files ++
            (if recognizedFormat cfg then [FPath.outFile (outputName cfg idx)] else []),
          progressEmits := st.progressEmits ++ [pyProgress idx total] }, none) := by
  obtain ⟨h1, h2, h3, h4⟩ := hok
  unfold processRecord
  rw [h1, h2, h3]
  cases hf : recognizedFormat cfg with
  | true =>
    rw [h4]
    simp [List.filter_append, filter_not_temp_eq_self st.files idx hnt,
      outFile_beq_tempFile]
  | false =>
    simp [List.filter_append, filter_not_temp_eq_self st.files idx hnt]

theorem processRecord_fail_eq (cfg : WorkerConfig) (orc : RecordOracles)
    (total : Nat) (st : WorkerState) (idx : Nat) (link : String) (e : String)
    (hfail : recordFailsWith orc idx e) (hfmt : recognizedFormat cfg = true)
    (hnt : FPath.tempFile idx ∉ st.files) :
    processRecord cfg orc total st idx link =
      ({ st with
          formattedChunks := st.formattedChunks ++ [formattedEntry cfg idx link] },
        some e) := by
  unfold processRecord
  rcases hfail with h1 | ⟨h1, h2⟩ | ⟨h1, h2, h3⟩ | ⟨h1, h2, h3, h4⟩
  · rw [h1]
  · rw [h1, h2]
    simp [List.filter_append, filter_not_temp_eq_self st.files idx hnt]
  · rw [h1, h2, h3]
    simp [List.filter_append, filter_not_temp_eq_self st.files idx hnt]
  · rw [h1, h2, h3, hfmt, h4]
    simp [List.filter_append, filter_not_temp_eq_self st.files idx hnt]

theorem noTemp_extend (st : WorkerState) (l : List FPath)
    (hnt : noTemp st) (hl : ∀ j, FPath.tempFile j ∉ l) :
    noTemp { st with files := st.files ++ l } := by
  intro j hj
  rcases List.mem_append.mp hj with h | h
  · exact hnt j h
  · exact hl j h

theorem noTemp_if_out (cfg : WorkerConfig) (idx : Nat) (j : Nat) :
    FPath.tempFile j ∉
      (if recognizedFormat cfg then [FPath.outFile (outputName cfg idx)] else []) := by
  cases recognizedFormat cfg <;> simp

theorem runLoop_ok_eq (cfg : WorkerConfig) (orc : RecordOracles) (total : Nat)
    (l : List String) :
    ∀ (st : WorkerState) (idx : Nat),
      (∀ k, k < l.length → recordOk orc (idx + k)) → noTemp st →
      runLoop cfg orc total st idx l =
        ({ st with
            formattedChunks := st.formattedChunks ++ entriesFrom cfg idx l,
            files := st.files ++ outFilesFrom cfg idx l,
            progressEmits := st.progressEmits ++ progressFrom total idx l }, none) := by
  induction l with
  | nil =>
    intro st idx _ _
    simp [runLoop, entriesFrom, outFilesFrom, progressFrom]
  | cons x rest ih =>
    intro st idx hok hnt
    rw [runLoop]
    rw [processRecord_ok_eq cfg orc total st idx x (hok 0 (by simp)) (hnt idx)]
    dsimp only
    rw [ih _ (idx + 1)
      (fun k hk => by
        have h2 := hok (k + 1) (by simpa using Nat.succ_lt_succ hk)
        rwa [show idx + (k + 1) = idx + 1 + k by omega] at h2)
      (by
        refine noTemp_extend _ _ ?_ (noTemp_if_out cfg idx)
        intro j hj
        exact hnt j hj)]
    simp only [entriesFrom, outFilesFrom, progressFrom, List.append_assoc,
      List.singleton_append, List.cons_append, List.nil_append]

theorem runLoop_fail_eq (cfg : WorkerConfig) (orc : RecordOracles) (total : Nat)
    (x : String) (l2 : List String) (e : String)
    (hfmt : recognizedFormat cfg = true) (l1 : List String) :
    ∀ (st : WorkerState) (idx : Nat),
      (∀ k, k < l1.length → recordOk orc (idx + k)) →
      recordFailsWith orc (idx + l1.length) e → noTemp st →
      runLoop cfg orc total st idx (l1 ++ x :: l2) =
        ({ st with
            formattedChunks := st.formattedChunks ++ entriesFrom cfg idx l1 ++
              [formattedEntry cfg (idx + l1.length) x],
            files := st.files ++ outFilesFrom cfg idx l1,
            progressEmits := st.progressEmits ++ progressFrom total idx l1 },
          some e) := by
  induction l1 with
  | nil =>
    intro st idx _ hfail hnt
    rw [List.nil_append, runLoop]
    rw [processRecord_fail_eq cfg orc total st idx x e hfail hfmt (hnt idx)]
    simp [entriesFrom, outFilesFrom, progressFrom]
  | cons y rest ih =>
    intro st idx hok hfail hnt
    rw [List.cons_append, runLoop]
    rw [processRecord_ok_eq cfg orc total st idx y (hok 0 (by simp)) (hnt idx)]
    dsimp only
    rw [ih _ (idx + 1)
      (fun k hk => by
        have h2 := hok (k + 1) (by simpa using Nat.succ_lt_succ hk)
        rwa [show idx + (k + 1) = idx + 1 + k by omega] at h2)
      (by
        have h2 := hfail
        rwa [show idx + (y :: rest).length = idx + 1 + rest.length by
          simp; omega] at h2)
      (by
        refine noTemp_extend _ _ ?_ (noTemp_if_out cfg idx)
        intro j hj
        exact hnt j hj)]
    simp only [entriesFrom, outFilesFrom, progressFrom, List.append_assoc,
      List.singleton_append, List.cons_append, List.nil_append, List.length_cons]
    rw [show idx + (rest.length + 1) = idx + 1 + rest.length by omega]

theorem noTemp_initialState (history0 : List HistoryRecord) :
    noTemp (initialState history0) := by
  intro j hj
  simp [initialState] at hj

theorem QRWorker_run_ok_eq (cfg : WorkerConfig) (orc : RecordOracles)
    (links : List String) (date : String) (history0 : List HistoryRecord)
    (hok : ∀ k, k < links.length → recordOk orc (1 + k)) :
    QRWorker_run cfg orc links date history0 =
      { files := FPath.outFile "formatted_links.txt" :: outFilesFrom cfg 1 links,
        formattedChunks := entriesFrom cfg 1 links,
        progressEmits := 0 :: progressFrom links.length 1 links,
        finishedEmits := [(true, "✅ Generated " ++ toString links.length ++
          " QR codes successfully!\n\n📁 Path: " ++ cfg.outputDir)],
        history := history0 ++
          [({ date := date, template := cfg.templateName,
              count := links.length,
              output_dir := cfg.outputDir } : HistoryRecord)] } := by
  simp only [QRWorker_run]
  rw [runLoop_ok_eq cfg orc links.length links (initialState history0) 1 hok
    (noTemp_initialState history0)]
  simp [initialState]

theorem QRWorker_run_fail_eq (cfg : WorkerConfig) (orc : RecordOracles)
    (l1 : List String) (x : String) (l2 : List String) (e : String)
    (date : String) (history0 : List HistoryRecord)
    (hfmt : recognizedFormat cfg = true)
    (hok : ∀ k, k < l1.length → recordOk orc (1 + k))
    (hfail : recordFailsWith orc (1 + l1.length) e) :
    QRWorker_run cfg orc (l1 ++ x :: l2) date history0 =
      { files := FPath.outFile "formatted_links.txt" :: outFilesFrom cfg 1 l1,
        formattedChunks := entriesFrom cfg 1 l1 ++
          [formattedEntry cfg (1 + l1.length) x],
        progressEmits := 0 :: progressFrom (l1 ++ x :: l2).length 1 l1,
        finishedEmits := [(false, "❌ Failed to generate QR codes:\n" ++ e)],
        history := history0 } := by
  simp only [QRWorker_run]
  rw [runLoop_fail_eq cfg orc (l1 ++ x :: l2).length x l2 e hfmt l1
    (initialState history0) 1 hok hfail (noTemp_initialState history0)]
  simp [initialState]

theorem outFilesFrom_mem (cfg : WorkerConfig)
    (hfmt : recognizedFormat cfg = true) (l : List String) :
    ∀ idx k, k < l.length →
      FPath.outFile (outputName cfg (idx + k)) ∈ outFilesFrom cfg idx l := by
  induction l with
  | nil => intro idx k hk; simp at hk
  | cons y rest ih =>
    intro idx k hk
    cases k with
    | zero => simp [outFilesFrom, hfmt]
    | succ k2 =>
      have h2 := ih (idx + 1) k2 (by simpa using hk)
      rw [outFilesFrom]
      rw [show idx + (k2 + 1) = idx + 1 + k2 by omega]
      exact List.mem_append.mpr (Or.inr h2)

/-- Claim C1: if some record's body raises (in encoding, bitmap save, template
rendering or output write) after all earlier records succeeded, the worker
reports failure exactly once, the message is exactly the failure banner
followed by the triggering error's text, no history record is appended to
the run's history, and the output files already written for the earlier
records remain on disk. -/
theorem qrworker_abort_spec (cfg : WorkerConfig) (orc : RecordOracles)
    (l1 : List String) (x : String) (l2 : List String) (e : String)
    (date : String) (history0 : List HistoryRecord)
    (hfmt : recognizedFormat cfg = true)
    (hok : ∀ k, k < l1.length → recordOk orc (1 + k))
    (hfail : recordFailsWith orc (1 + l1.length) e) :
    (QRWorker_run cfg orc (l1 ++ x :: l2) date history0).finishedEmits
      = [(false, "❌ Failed to generate QR codes:\n" ++ e)] ∧
    (QRWorker_run cfg orc (l1 ++ x :: l2) date history0).history = history0 ∧
    (∀ k, k < l1.length →
      FPath.outFile (outputName cfg (1 + k))
        ∈ (QRWorker_run cfg orc (l1 ++ x :: l2) date history0).files) := by
  rw [QRWorker_run_fail_eq cfg orc l1 x l2 e date history0 hfmt hok hfail]
  refine ⟨rfl, rfl, ?_⟩
  intro k hk
  exact List.mem_cons_of_mem _ (outFilesFrom_mem cfg hfmt l1 1 k hk)

/-- Claim C1 witness: a 3-record job whose second record's rendering raises
`boom`: one failure emission carrying the text, empty history, record 1's
output file on disk. -/
theorem qrworker_abort_spec_witness :
    (QRWorker_run
      { prefixText := "QR", templateName := "Modern Gradient",
        outputFormat := "PNG", outputDir := "out" }
      { encodeErr := fun _ => none, saveErr := fun _ => none,
        renderErr := fun j => if j = 2 then some "boom" else none,
        writeErr := fun _ => none }
      ["a", "b", "c"] "2024-01-01 00:00:00" []).finishedEmits
      = [(false, "❌ Failed to generate QR codes:\nboom")] ∧
    (QRWorker_run
      { prefixText := "QR", templateName := "Modern Gradient",
        outputFormat := "PNG", outputDir := "out" }
      { encodeErr := fun _ => none, saveErr := fun _ => none,
        renderErr := fun j => if j = 2 then some "boom" else none,
        writeErr := fun _ => none }
      ["a", "b", "c"] "2024-01-01 00:00:00" []).history = [] ∧
    FPath.outFile (outputName
      { prefixText := "QR", templateName := "Modern Gradient",
        outputFormat := "PNG", outputDir := "out" } 1)
      ∈ (QRWorker_run
      { prefixText := "QR", templateName := "Modern Gradient",
        outputFormat := "PNG", outputDir := "out" }
      { encodeErr := fun _ => none, saveErr := fun _ => none,
        renderErr := fun j => if j = 2 then some "boom" else none,
        writeErr := fun _ => none }
      ["a", "b", "c"] "2024-01-01 00:00:00" []).files := by
  have h := qrworker_abort_spec
    { prefixText := "QR", templateName := "Modern Gradient",
      outputFormat := "PNG", outputDir := "out" }
    { encodeErr := fun _ => none, saveErr := fun _ => none,
      renderErr := fun j => if j = 2 then some "boom" else none,
      writeErr := fun _ => none }
    ["a"] "b" ["c"] "boom" "2024-01-01 00:00:00" []
    (by decide)
    (by
      intro k hk
      have hk1 : k < 1 := by simpa using hk
      have hk0 : k = 0 := by omega
      subst hk0
      exact ⟨rfl, rfl, rfl, rfl⟩)
    (Or.inr (Or.inr (Or.inl ⟨rfl, rfl, rfl⟩)))
  exact ⟨h.1, h.2.1, h.2.2 0 (by simp)⟩

theorem progressFrom_eq_map (total : Nat) (l : List String) :
    ∀ idx, progressFrom total idx l
      = (List.range l.length).map (fun k => pyProgress (idx + k) total) := by
  induction l with
  | nil => intro idx; rfl
  | cons y rest ih =>
    intro idx
    rw [progressFrom, ih (idx + 1), List.length_cons, List.range_succ_eq_map,
      List.map_cons, List.map_map]
    refine congrArg₂ _ (by rw [Nat.add_zero]) ?_
    refine List.map_congr_left ?_
    intro k _
    simp only [Function.comp_apply]
    rw [show idx + (k + 1) = idx + 1 + k by omega]

/-- Claim C4 counterexample: an input file that is set and exists but contains
no non-blank lines passes `start_generation`'s validation (which checks
only that a path is set and the file exists), and the resulting
zero-record run does not fail: it reports success, appends a history
record, and creates `formatted_links.txt` — contradicting the claimed
immediate validation failure with no partial output. -/
theorem empty_input_counterexample :
    start_generation_starts true true = true ∧
    (QRWorker_run
      { prefixText := "QR", templateName := "Modern Gradient",
        outputFormat := "PNG", outputDir := "out" }
      { encodeErr := fun _ => none, saveErr := fun _ => none,
        renderErr := fun _ => none, writeErr := fun _ => none }
      [] "2024-01-01 00:00:00" []).finishedEmits
      = [(true, "✅ Generated 0 QR codes successfully!\n\n📁 Path: out")] ∧
    (QRWorker_run
      { prefixText := "QR", templateName := "Modern Gradient",
        outputFormat := "PNG", outputDir := "out" }
      { encodeErr := fun _ => none, saveErr := fun _ => none,
        renderErr := fun _ => none, writeErr := fun _ => none }
      [] "2024-01-01 00:00:00" []).history
      = [({ date := "2024-01-01 00:00:00", template := "Modern Gradient",
            count := 0, output_dir := "out" } : HistoryRecord)] ∧
    FPath.outFile "formatted_links.txt" ∈
      (QRWorker_run
        { prefixText := "QR", templateName := "Modern Gradient",
          outputFormat := "PNG", outputDir := "out" }
        { encodeErr := fun _ => none, saveErr := fun _ => none,
          renderErr := fun _ => none, writeErr := fun _ => none }
        [] "2024-01-01 00:00:00" []).files := by
  refine ⟨rfl, rfl, rfl, ?_⟩
  show FPath.outFile "formatted_links.txt" ∈ [FPath.outFile "formatted_links.txt"]
  simp

/-- Claim C4 amended: starting a batch run requires only that an input path is
set and that the file exists; non-emptiness of its content is not
validated. When the input file exists but contains no non-blank lines, the
worker performs a zero-record run that succeeds: it emits progress 0,
creates `formatted_links.txt` (and nothing else), appends one history
record with count 0, and reports success naming the output directory. -/
theorem empty_input_amended (cfg : WorkerConfig) (orc : RecordOracles)
    (date : String) (history0 : List HistoryRecord) :
    start_generation_starts true true = true ∧
    QRWorker_run cfg orc [] date history0 =
      { files := [FPath.outFile "formatted_links.txt"],
        formattedChunks := [],
        progressEmits := [0],
        finishedEmits := [(true, "✅ Generated 0 QR codes successfully!\n\n📁 Path: "
          ++ cfg.outputDir)],
        history := history0 ++
          [({ date := date, template := cfg.templateName, count := 0,
              output_dir := cfg.outputDir } : HistoryRecord)] } := by
  exact ⟨rfl, rfl⟩

theorem noTemp_filter (l : List FPath) (idx : Nat)
    (hl : ∀ j, FPath.tempFile j ∈ l → j = idx) :
    ∀ j, FPath.tempFile j ∉ l.filter (fun f => !(f == FPath.tempFile idx)) := by
  intro j hj
  rcases List.mem_filter.mp hj with ⟨hmem, hpred⟩
  have hje := hl j hmem
  subst hje
  simp at hpred

theorem temps_in_append_one (files : List FPath) (idx : Nat)
    (hnt : ∀ j, FPath.tempFile j ∉ files) :
    ∀ j, FPath.tempFile j ∈ files ++ [FPath.tempFile idx] → j = idx := by
  intro j hm
  rcases List.mem_append.mp hm with h | h
  · exact absurd h (hnt j)
  · simp at h
    exact h

theorem temps_in_append_two (files : List FPath) (idx : Nat) (s : String)
    (hnt : ∀ j, FPath.tempFile j ∉ files) :
    ∀ j, FPath.tempFile j ∈ (files ++ [FPath.tempFile idx]) ++ [FPath.outFile s]
      → j = idx := by
  intro j hm
  rcases List.mem_append.mp hm with h | h
  · exact temps_in_append_one files idx hnt j h
  · simp at h

theorem processRecord_noTemp (cfg : WorkerConfig) (orc : RecordOracles)
    (total : Nat) (st : WorkerState) (idx : Nat) (link : String)
    (hnt : noTemp st) :
    noTemp (processRecord cfg orc total st idx link).1 := by
  unfold processRecord
  cases h1 : orc.encodeErr idx with
  | some e => exact fun j hj => hnt j hj
  | none =>
    cases h2 : orc.saveErr idx with
    | some e => exact noTemp_filter _ idx (temps_in_append_one st.files idx hnt)
    | none =>
      cases h3 : orc.renderErr idx with
      | some e => exact noTemp_filter _ idx (temps_in_append_one st.files idx hnt)
      | none =>
        cases hf : recognizedFormat cfg with
        | true =>
          cases h4 : orc.writeErr idx with
          | some e => exact noTemp_filter _ idx (temps_in_append_one st.files idx hnt)
          | none => exact noTemp_filter _ idx (temps_in_append_two st.files idx _ hnt)
        | false => exact noTemp_filter _ idx (temps_in_append_one st.files idx hnt)

theorem runLoop_noTemp (cfg : WorkerConfig) (orc : RecordOracles) (total : Nat)
    (l : List String) :
    ∀ (st : WorkerState) (idx : Nat), noTemp st →
      noTemp (runLoop cfg orc total st idx l).1 := by
  induction l with
  | nil => intro st idx h; exact h
  | cons x rest ih =>
    intro st idx h
    rw [runLoop]
    cases he : (processRecord cfg orc total st idx x).2 with
    | some e =>
      simp only [he]
      exact processRecord_noTemp cfg orc total st idx x h
    | none =>
      simp only [he]
      exact ih _ (idx + 1) (processRecord_noTemp cfg orc total st idx x h)

theorem QRWorker_run_noTemp (cfg : WorkerConfig) (orc : RecordOracles)
    (links : List String) (date : String) (history0 : List HistoryRecord) :
    noTemp (QRWorker_run cfg orc links date history0) := by
  simp only [QRWorker_run]
  cases he : (runLoop cfg orc links.length (initialState history0) 1 links).2 with
  | none =>
    simp only [he]
    exact fun j hj => runLoop_noTemp cfg orc links.length links
      (initialState history0) 1 (noTemp_initialState history0) j hj
  | some e =>
    simp only [he]
    exact fun j hj => runLoop_noTemp cfg orc links.length links
      (initialState history0) 1 (noTemp_initialState history0) j hj

/-- Claim C9: the temporary QR bitmap file created for a record is gone from the
filesystem when that record's processing finishes — whatever the outcome of
the record's bitmap save, template rendering or output write — so the
state handed to the next record, and the state at job termination, contain
no temporary bitmap file. -/
theorem qrworker_temp_cleanup (cfg : WorkerConfig) (orc : RecordOracles)
    (total : Nat) (st : WorkerState) (idx : Nat) (link : String)
    (links : List String) (date : String) (history0 : List HistoryRecord)
    (hnt : noTemp st) :
    noTemp (processRecord cfg orc total st idx link).1 ∧
    noTemp (QRWorker_run cfg orc links date history0) :=
  ⟨processRecord_noTemp cfg orc total st idx link hnt,
   QRWorker_run_noTemp cfg orc links date history0⟩

/-- Claim C9 witness: a concrete one-record run whose render raises — the temp
file of record 1 is absent from the post-record state and from the final
filesystem. -/
theorem qrworker_temp_cleanup_witness :
    FPath.tempFile 1 ∉
      (processRecord
        { prefixText := "QR", templateName := "Modern Gradient",
          outputFormat := "PNG", outputDir := "out" }
        { encodeErr := fun _ => none, saveErr := fun _ => none,
          renderErr := fun _ => some "boom", writeErr := fun _ => none }
        1
        { files := [], formattedChunks := [], progressEmits := [],
          finishedEmits := [], history := [] }
        1 "a").1.files ∧
    FPath.tempFile 1 ∉
      (QRWorker_run
        { prefixText := "QR", templateName := "Modern Gradient",
          outputFormat := "PNG", outputDir := "out" }
        { encodeErr := fun _ => none, saveErr := fun _ => none,
          renderErr := fun _ => some "boom", writeErr := fun _ => none }
        ["a"] "2024-01-01 00:00:00" []).files := by
  have h := qrworker_temp_cleanup
    { prefixText := "QR", templateName := "Modern Gradient",
      outputFormat := "PNG", outputDir := "out" }
    { encodeErr := fun _ => none, saveErr := fun _ => none,
      renderErr := fun _ => some "boom", writeErr := fun _ => none }
    1
    { files := [], formattedChunks := [], progressEmits := [],
      finishedEmits := [], history := [] }
    1 "a" ["a"] "2024-01-01 00:00:00" []
    (by intro j hj; simp at hj)
  exact ⟨h.1 1, h.2 1⟩

theorem processRecord_chunks (cfg : WorkerConfig) (orc : RecordOracles)
    (total : Nat) (st : WorkerState) (idx : Nat) (link : String) :
    (processRecord cfg orc total st idx link).1.formattedChunks
      = st.formattedChunks ++ [formattedEntry cfg idx link] := by
  unfold processRecord
  cases h1 : orc.encodeErr idx with
  | some e => rfl
  | none =>
    cases h2 : orc.saveErr idx with
    | some e => rfl
    | none =>
      cases h3 : orc.renderErr idx with
      | some e => rfl
      | none =>
        cases hf : recognizedFormat cfg with
        | true =>
          cases h4 : orc.writeErr idx with
          | some e => rfl
          | none => rfl
        | false => rfl

theorem runLoop_chunks_extend (cfg : WorkerConfig) (orc : RecordOracles)
    (total : Nat) (l : List String) :
    ∀ (st : WorkerState) (idx : Nat),
      ∃ suf, (runLoop cfg orc total st idx l).1.formattedChunks
        = st.formattedChunks ++ suf := by
  induction l with
  | nil => intro st idx; exact ⟨[], by simp [runLoop]⟩
  | cons x rest ih =>
    intro st idx
    rw [runLoop]
    cases he : (processRecord cfg orc total st idx x).2 with
    | some e =>
      simp only [he]
      exact ⟨[formattedEntry cfg idx x], processRecord_chunks cfg orc total st idx x⟩
    | none =>
      simp only [he]
      obtain ⟨suf2, hsuf⟩ := ih (processRecord cfg orc total st idx x).1 (idx + 1)
      refine ⟨[formattedEntry cfg idx x] ++ suf2, ?_⟩
      rw [hsuf, processRecord_chunks cfg orc total st idx x]
      simp [List.append_assoc]

theorem runLoop_prefix_chunks (cfg : WorkerConfig) (orc : RecordOracles)
    (total : Nat) (x : String) (l2 : List String) (l1 : List String) :
    ∀ (st : WorkerState) (idx : Nat),
      (∀ k, k < l1.length → recordOk orc (idx + k)) → noTemp st →
      ∃ suf, (runLoop cfg orc total st idx (l1 ++ x :: l2)).1.formattedChunks
        = st.formattedChunks ++ entriesFrom cfg idx l1 ++
          [formattedEntry cfg (idx + l1.length) x] ++ suf := by
  induction l1 with
  | nil =>
    intro st idx _ _
    rw [List.nil_append, runLoop]
    cases he : (processRecord cfg orc total st idx x).2 with
    | some e =>
      simp only [he]
      refine ⟨[], ?_⟩
      rw [processRecord_chunks cfg orc total st idx x]
      simp [entriesFrom]
    | none =>
      simp only [he]
      obtain ⟨suf2, hsuf⟩ := runLoop_chunks_extend cfg orc total l2
        (processRecord cfg orc total st idx x).1 (idx + 1)
      refine ⟨suf2, ?_⟩
      rw [hsuf, processRecord_chunks cfg orc total st idx x]
      simp [entriesFrom, List.append_assoc]
  | cons y rest ih =>
    intro st idx hok hnt
    rw [List.cons_append, runLoop]
    rw [processRecord_ok_eq cfg orc total st idx y (hok 0 (by simp)) (hnt idx)]
    dsimp only
    obtain ⟨suf, hsuf⟩ := ih
      { st with
          formattedChunks := st.formattedChunks ++ [formattedEntry cfg idx y],
          files := st.files ++
            (if recognizedFormat cfg then [FPath.outFile (outputName cfg idx)] else []),
          progressEmits := st.progressEmits ++ [pyProgress idx total] }
      (idx + 1)
      (fun k hk => by
        have h2 := hok (k + 1) (by simpa using Nat.succ_lt_succ hk)
        rwa [show idx + (k + 1) = idx + 1 + k by omega] at h2)
      (by
        refine noTemp_extend _ _ ?_ (noTemp_if_out cfg idx)
        intro j hj
        exact hnt j hj)
    refine ⟨suf, ?_⟩
    rw [hsuf]
    simp only [entriesFrom, List.append_assoc, List.singleton_append,
      List.cons_append, List.nil_append, List.length_cons]
    rw [show idx + (rest.length + 1) = idx + 1 + rest.length by omega]

theorem entriesFrom_length (cfg : WorkerConfig) (l : List String) :
    ∀ idx, (entriesFrom cfg idx l).length = l.length := by
  induction l with
  | nil => intro idx; rfl
  | cons y rest ih =>
    intro idx
    rw [entriesFrom, List.length_cons, ih (idx + 1), List.length_cons]

theorem processRecord_keeps_outFile (cfg : WorkerConfig) (orc : RecordOracles)
    (total : Nat) (st : WorkerState) (idx : Nat) (link : String) (s : String)
    (h : FPath.outFile s ∈ st.files) :
    FPath.outFile s ∈ (processRecord cfg orc total st idx link).1.files := by
  have hmem1 : FPath.outFile s ∈ (st.files ++ [FPath.tempFile idx]).filter
      (fun f => !(f == FPath.tempFile idx)) :=
    List.mem_filter.mpr ⟨List.mem_append.mpr (Or.inl h),
      by simp [outFile_beq_tempFile]⟩
  have hmem2 : FPath.outFile s ∈
      ((st.files ++ [FPath.tempFile idx]) ++ [FPath.outFile (outputName cfg idx)]).filter
      (fun f => !(f == FPath.tempFile idx)) :=
    List.mem_filter.mpr
      ⟨List.mem_append.mpr (Or.inl (List.mem_append.mpr (Or.inl h))),
        by simp [outFile_beq_tempFile]⟩
  unfold processRecord
  cases h1 : orc.encodeErr idx with
  | some e => exact h
  | none =>
    cases h2 : orc.saveErr idx with
    | some e => exact hmem1
    | none =>
      cases h3 : orc.renderErr idx with
      | some e => exact hmem1
      | none =>
        cases hf : recognizedFormat cfg with
        | true =>
          cases h4 : orc.writeErr idx with
          | some e => exact hmem1
          | none => exact hmem2
        | false => exact hmem1

theorem runLoop_keeps_outFile (cfg : WorkerConfig) (orc : RecordOracles)
    (total : Nat) (l : List String) (s : String) :
    ∀ (st : WorkerState) (idx : Nat), FPath.outFile s ∈ st.files →
      FPath.outFile s ∈ (runLoop cfg orc total st idx l).1.files := by
  induction l with
  | nil => intro st idx h; exact h
  | cons x rest ih =>
    intro st idx h
    rw [runLoop]
    cases he : (processRecord cfg orc total st idx x).2 with
    | some e =>
      simp only [he]
      exact processRecord_keeps_outFile cfg orc total st idx x s h
    | none =>
      simp only [he]
      exact ih _ (idx + 1) (processRecord_keeps_outFile cfg orc total st idx x s h)

theorem QRWorker_run_files_eq (cfg : WorkerConfig) (orc : RecordOracles)
    (links : List String) (date : String) (history0 : List HistoryRecord) :
    (QRWorker_run cfg orc links date history0).files
      = (runLoop cfg orc links.length (initialState history0) 1 links).1.files := by
  simp only [QRWorker_run]
  cases he : (runLoop cfg orc links.length (initialState history0) 1 links).2 with
  | none => simp only [he]
  | some e => simp only [he]

theorem QRWorker_run_chunks_eq (cfg : WorkerConfig) (orc : RecordOracles)
    (links : List String) (date : String) (history0 : List HistoryRecord) :
    (QRWorker_run cfg orc links date history0).formattedChunks
      = (runLoop cfg orc links.length (initialState history0) 1 links).1.formattedChunks := by
  simp only [QRWorker_run]
  cases he : (runLoop cfg orc links.length (initialState history0) 1 links).2 with
  | none => simp only [he]
  | some e => simp only [he]

/-- Claim C10: every batch run that reaches the per-record loop has
`formatted_links.txt` in the output directory, and after the records before
some position have succeeded, the chunks written to it are exactly, in
input order, one entry per reached record — the record's label
`"{prefix} {index}"` on one line, then the raw un-normalized payload
wrapped in backticks, then a blank line (see `formattedEntry`) — with the
entry of the next record (1-based index `|l1| + 1`) already written
whether or not that record's encoding, rendering or write subsequently
raises; so the file and the earlier entries exist even if a later record
aborts the job. -/
theorem qrworker_formatted_links_spec (cfg : WorkerConfig) (orc : RecordOracles)
    (l1 : List String) (x : String) (l2 : List String)
    (date : String) (history0 : List HistoryRecord)
    (hok : ∀ k, k < l1.length → recordOk orc (1 + k)) :
    FPath.outFile "formatted_links.txt"
      ∈ (QRWorker_run cfg orc (l1 ++ x :: l2) date history0).files ∧
    (QRWorker_run cfg orc (l1 ++ x :: l2) date history0).formattedChunks.take
        (l1.length + 1)
      = entriesFrom cfg 1 l1 ++ [formattedEntry cfg (1 + l1.length) x] := by
  constructor
  · rw [QRWorker_run_files_eq]
    exact runLoop_keeps_outFile cfg orc (l1 ++ x :: l2).length (l1 ++ x :: l2)
      "formatted_links.txt" (initialState history0) 1 (by simp [initialState])
  · rw [QRWorker_run_chunks_eq]
    obtain ⟨suf, hsuf⟩ := runLoop_prefix_chunks cfg orc (l1 ++ x :: l2).length
      x l2 l1 (initialState history0) 1 hok (noTemp_initialState history0)
    rw [hsuf]
    have hnil : (initialState history0).formattedChunks = [] := rfl
    rw [hnil, List.nil_append]
    have hlen : (entriesFrom cfg 1 l1 ++ [formattedEntry cfg (1 + l1.length) x]).length
        = l1.length + 1 := by
      rw [List.length_append, entriesFrom_length cfg l1 1, List.length_singleton]
    rw [List.append_assoc (entriesFrom cfg 1 l1), ← List.append_assoc, ← hlen,
      List.take_left]

/-- Claim C10 witness: a 2-record all-success run — the formatted file exists and
its first two chunks are the entries of records 1 and 2. -/
theorem qrworker_formatted_links_spec_witness :
    FPath.outFile "formatted_links.txt"
      ∈ (QRWorker_run
        { prefixText := "QR", templateName := "Modern Gradient",
          outputFormat := "PNG", outputDir := "out" }
        { encodeErr := fun _ => none, saveErr := fun _ => none,
          renderErr := fun _ => none, writeErr := fun _ => none }
        ["a", "b"] "2024-01-01 00:00:00" []).files ∧
    (QRWorker_run
      { prefixText := "QR", templateName := "Modern Gradient",
        outputFormat := "PNG", outputDir := "out" }
      { encodeErr := fun _ => none, saveErr := fun _ => none,
        renderErr := fun _ => none, writeErr := fun _ => none }
      ["a", "b"] "2024-01-01 00:00:00" []).formattedChunks.take 2
      = ["QR 1\n`a`\n\n", "QR 2\n`b`\n\n"] := by
  have h := qrworker_formatted_links_spec
    { prefixText := "QR", templateName := "Modern Gradient",
      outputFormat := "PNG", outputDir := "out" }
    { encodeErr := fun _ => none, saveErr := fun _ => none,
      renderErr := fun _ => none, writeErr := fun _ => none }
    ["a"] "b" [] "2024-01-01 00:00:00" []
    (by
      intro k hk
      have hk1 : k < 1 := by simpa using hk
      have hk0 : k = 0 := by omega
      subst hk0
      exact ⟨rfl, rfl, rfl, rfl⟩)
  refine ⟨h.1, ?_⟩
  exact h.2

set_option maxRecDepth 10000 in
/-- Claim C3 counterexample: the claim asserts the worker emits exactly
`floor(i / N * 100)` after record `i`, i.e. 58 after record 29 of a
50-record batch; but `int((29 / 50) * 100)` is evaluated in binary64
arithmetic, where the product is just below 58 and truncation yields 57.
A concrete all-success 50-record run emits 57 at position 29 of its
progress channel. -/
theorem qrworker_progress_counterexample :
    pyProgress 29 50 = 57 ∧ 29 * 100 / 50 = 58 ∧
    (QRWorker_run
      { prefixText := "QR", templateName := "Modern Gradient",
        outputFormat := "PNG", outputDir := "out" }
      { encodeErr := fun _ => none, saveErr := fun _ => none,
        renderErr := fun _ => none, writeErr := fun _ => none }
      (List.replicate 50 "a") "d" []).progressEmits[29]? = some 57 := by
  refine ⟨by decide, by decide, ?_⟩
  rw [QRWorker_run_ok_eq _ _ _ _ _ (fun k _ => ⟨rfl, rfl, rfl, rfl⟩)]
  show ((0 : Nat) :: progressFrom (List.replicate 50 "a").length 1
    (List.replicate 50 "a"))[29]? = some 57
  rw [List.getElem?_cons_succ, progressFrom_eq_map]
  rw [List.getElem?_map, List.getElem?_range (by norm_num)]
  decide

/-- Claim C3 amended: in every batch run over `N ≥ 1` records that completes
without exception, the worker emits progress 0 before the first record and,
after each record with 1-based index `i`, exactly `int((i / N) * 100)`
computed in binary64 floating point (which can be one less than
`floor(i * 100 / N)`, e.g. 57 instead of 58 at record 29 of 50); every
emitted value lies in 0..100, the sequence is monotonically non-decreasing,
and the final value is 100. -/
theorem qrworker_progress_amended (cfg : WorkerConfig) (orc : RecordOracles)
    (links : List String) (date : String) (history0 : List HistoryRecord)
    (hne : links ≠ []) (hok : ∀ k, k < links.length → recordOk orc (1 + k)) :
    (QRWorker_run cfg orc links date history0).progressEmits
        = (List.range (links.length + 1)).map
            (fun k => pyProgress k links.length) ∧
      (QRWorker_run cfg orc links date history0).progressEmits.head?
        = some 0 ∧
      (∀ v ∈ (QRWorker_run cfg orc links date history0).progressEmits,
        v ≤ 100) ∧
      List.Chain' (fun a b => a ≤ b)
        (QRWorker_run cfg orc links date history0).progressEmits ∧
      (QRWorker_run cfg orc links date history0).progressEmits.getLast?
        = some 100 := by
  have hN : 1 ≤ links.length := by
    cases links with
    | nil => exact absurd rfl hne
    | cons a l => simp
  have hpe : (QRWorker_run cfg orc links date history0).progressEmits
      = (List.range (links.length + 1)).map
          (fun k => pyProgress k links.length) := by
    rw [QRWorker_run_ok_eq cfg orc links date history0 hok]
    show (0 : Nat) :: progressFrom links.length 1 links
      = (List.range (links.length + 1)).map
          (fun k => pyProgress k links.length)
    rw [progressFrom_eq_map, List.range_succ_eq_map, List.map_cons,
      List.map_map, pyProgress_zero]
    refine congrArg _ (List.map_congr_left ?_)
    intro k _
    simp only [Function.comp_apply]
    rw [Nat.add_comm 1 k]
  refine ⟨hpe, ?_, ?_, ?_, ?_⟩
  · rw [hpe, List.range_succ_eq_map, List.map_cons, List.head?_cons,
      pyProgress_zero]
  · intro v hv
    rw [hpe, List.mem_map] at hv
    obtain ⟨k, hk, rfl⟩ := hv
    rw [List.mem_range] at hk
    exact pyProgress_le_100 k links.length (by omega) hN
  · rw [hpe, List.chain'_map, List.chain'_range_succ]
    intro i hi
    exact pyProgress_mono i (i + 1) links.length (by omega) hN
  · rw [hpe, List.range_succ, List.map_append, List.map_cons, List.map_nil,
      List.getLast?_concat, pyProgress_last links.length hN]

/-- Claim C3 amended witness: a concrete all-success 2-record run; its
progress channel is the binary64 sequence for N = 2 (which is [0, 50, 100]),
starting at 0, bounded by 100, non-decreasing, and ending at 100. -/
theorem qrworker_progress_amended_witness :
    (QRWorker_run
      { prefixText := "QR", templateName := "Modern Gradient",
        outputFormat := "PNG", outputDir := "out" }
      { encodeErr := fun _ => none, saveErr := fun _ => none,
        renderErr := fun _ => none, writeErr := fun _ => none }
      ["a", "b"] "d" []).progressEmits
        = (List.range 3).map (fun k => pyProgress k 2) ∧
      (QRWorker_run
      { prefixText := "QR", templateName := "Modern Gradient",
        outputFormat := "PNG", outputDir := "out" }
      { encodeErr := fun _ => none, saveErr := fun _ => none,
        renderErr := fun _ => none, writeErr := fun _ => none }
      ["a", "b"] "d" []).progressEmits.head? = some 0 ∧
      (∀ v ∈ (QRWorker_run
      { prefixText := "QR", templateName := "Modern Gradient",
        outputFormat := "PNG", outputDir := "out" }
      { encodeErr := fun _ => none, saveErr := fun _ => none,
        renderErr := fun _ => none, writeErr := fun _ => none }
      ["a", "b"] "d" []).progressEmits, v ≤ 100) ∧
      List.Chain' (fun a b => a ≤ b) (QRWorker_run
      { prefixText := "QR", templateName := "Modern Gradient",
        outputFormat := "PNG", outputDir := "out" }
      { encodeErr := fun _ => none, saveErr := fun _ => none,
        renderErr := fun _ => none, writeErr := fun _ => none }
      ["a", "b"] "d" []).progressEmits ∧
      (QRWorker_run
      { prefixText := "QR", templateName := "Modern Gradient",
        outputFormat := "PNG", outputDir := "out" }
      { encodeErr := fun _ => none, saveErr := fun _ => none,
        renderErr := fun _ => none, writeErr := fun _ => none }
      ["a", "b"] "d" []).progressEmits.getLast? = some 100 :=
  qrworker_progress_amended
    { prefixText := "QR", templateName := "Modern Gradient",
      outputFormat := "PNG", outputDir := "out" }
    { encodeErr := fun _ => none, saveErr := fun _ => none,
      renderErr := fun _ => none, writeErr := fun _ => none }
    ["a", "b"] "d" [] (by decide) (fun k _ => ⟨rfl, rfl, rfl, rfl⟩)

set_option maxRecDepth 10000 in
/-- Claim C5 counterexample: `create_gradient` neither rounds nor reaches
`colorB`, and its channels are not monotonic. Height 2, black to white,
vertical: the program truncates to 127 where the claimed `round` gives 128,
and the far scanline is (127,127,127), not (255,255,255). At channel values
A = 255, B = 0, scanline 4 of extent 5 the binary64 value of
`255 * (1 - 4/5) + 0 * (4/5)` is just below 51 and the program writes 50
where exact rational floor arithmetic gives 51. With colors differing only
in one channel, a shared channel value of 255 at extent 701 is written as
255, 254, ..., 255 (scanlines 0, 1, 350): not monotonic. -/
theorem create_gradient_counterexample :
    create_gradient 1 2 ⟨0, 0, 0⟩ ⟨255, 255, 255⟩ "vertical"
        = [⟨0, 0, 0⟩, ⟨127, 127, 127⟩] ∧
      gradChannelSpecRound 0 255 1 2 = 128 ∧
      (create_gradient 1 2 ⟨0, 0, 0⟩ ⟨255, 255, 255⟩ "vertical").getLast?
        ≠ some ⟨255, 255, 255⟩ ∧
      pyGradChannel 255 0 4 5 = 50 ∧ (255 * (5 - 4) + 0 * 4) / 5 = 51 ∧
      pyGradChannel 255 255 0 701 = 255 ∧ pyGradChannel 255 255 1 701 = 254 ∧
      pyGradChannel 255 255 350 701 = 255 := by
  refine ⟨by decide, by decide, by decide, by decide, by decide, by decide,
    by decide, by decide⟩

/-- Claim C5 amended: for every width ≥ 1, height ≥ 1 and 8-bit colors A, B,
`create_gradient` fills the scanline at 0-based position `i` of the chosen
axis with, per channel, `int(A_c * (1 - i/extent) + B_c * (i/extent))`
evaluated in binary64 floating point and truncated toward zero (which can be
one below the exact rational floor); the scanline at position 0 equals A
exactly, and the far-end scanline is the interpolant at ratio
`(extent-1)/extent`, which in general does not equal B. -/
theorem create_gradient_amended (w h : Nat) (A B : RGB) (dir : String)
    (hw : 1 ≤ w) (hh : 1 ≤ h)
    (hA : A.r ≤ 255 ∧ A.g ≤ 255 ∧ A.b ≤ 255) :
    (create_gradient w h A B dir).length
        = (if dir = "vertical" then h else w) ∧
      (∀ i, (create_gradient w h A B dir)[i]?
        = if i < (if dir = "vertical" then h else w)
          then some (pyGradColor A B i (if dir = "vertical" then h else w))
          else none) ∧
      (create_gradient w h A B dir).head? = some A ∧
      (create_gradient w h A B dir).getLast?
        = some (pyGradColor A B ((if dir = "vertical" then h else w) - 1)
            (if dir = "vertical" then h else w)) := by
  have hpos : 1 ≤ (if dir = "vertical" then h else w) := by
    by_cases hd : dir = "vertical" <;> simp [hd, hw, hh]
  exact ⟨create_gradient_length w h A B dir,
    fun i => create_gradient_getElem w h A B dir i,
    create_gradient_head w h A B dir hpos hA,
    create_gradient_last w h A B dir hpos⟩

/-- Claim C5 amended witness: the amended theorem at width 1, height 2,
black to white, vertical axis. -/
theorem create_gradient_amended_witness :
    (create_gradient 1 2 ⟨0, 0, 0⟩ ⟨255, 255, 255⟩ "vertical").length
        = (if "vertical" = "vertical" then 2 else 1) ∧
      (∀ i, (create_gradient 1 2 ⟨0, 0, 0⟩ ⟨255, 255, 255⟩ "vertical")[i]?
        = if i < (if "vertical" = "vertical" then 2 else 1)
          then some (pyGradColor ⟨0, 0, 0⟩ ⟨255, 255, 255⟩ i
            (if "vertical" = "vertical" then 2 else 1))
          else none) ∧
      (create_gradient 1 2 ⟨0, 0, 0⟩ ⟨255, 255, 255⟩ "vertical").head?
        = some ⟨0, 0, 0⟩ ∧
      (create_gradient 1 2 ⟨0, 0, 0⟩ ⟨255, 255, 255⟩ "vertical").getLast?
        = some (pyGradColor ⟨0, 0, 0⟩ ⟨255, 255, 255⟩
            ((if "vertical" = "vertical" then 2 else 1) - 1)
            (if "vertical" = "vertical" then 2 else 1)) :=
  create_gradient_amended 1 2 ⟨0, 0, 0⟩ ⟨255, 255, 255⟩ "vertical"
    (by decide) (by decide) (by decide)

end QRGen
